import Mathlib

/-!
Verification of the AxiomOne kernel module-setup pipeline
(src/kernel/modules/modules.ts, errors.ts, types.ts).

The pipeline state is embedded shallowly: the process-wide mutable
variables (the diagnostics registry Map, the init-order array, the
setup-time and the two flags) become a KState record threaded through
the stage functions; the filesystem, the JSON parser, the dynamic
importing machinery and the wall clock become an Env record of oracles.
A JavaScript Map is an insertion-ordered association list whose set
operation updates in place or appends.  JSON.parse results are a JVal
inductive; Object.freeze is a boolean flag on the stored value.
A thrown exception that escapes a function is Option.none.
-/

namespace AxiomOne

/-- Result of JSON.parse applied to the manifest file: null, booleans,
numbers, strings, arrays and objects (an object is an ordered field list;
duplicate keys are already resolved by the parser). -/
inductive JVal where
  | jnull : JVal
  | jbool : Bool → JVal
  | jnum : Int → JVal
  | jstr : String → JVal
  | jarr : List JVal → JVal
  | jobj : List (String × JVal) → JVal

/-- A manifest value as stored by the pipeline: the parsed JSON value
together with whether Object.freeze has been applied to it. -/
structure StoredManifest where
  val : JVal
  frozen : Bool

/-- The four pipeline stages (ModuleSetupStage in types.ts). -/
inductive Stage where
  | discovery : Stage
  | validation : Stage
  | loading : Stage
  | initialization : Stage
deriving DecidableEq, Repr

/-- Cause of a discovery failure: readFile threw, JSON.parse threw, or
the parsed value failed the object-shape check (errors.ts keeps the
cause as an opaque value; we keep its kind). -/
inductive DiscCause where
  | ioError : DiscCause
  | parseError : DiscCause
  | notAnObject : DiscCause
deriving DecidableEq, Repr

/-- The error taxonomy of errors.ts, with the constructor arguments the
source passes to each class. -/
inductive SetupError where
  | moduleDiscoveryError : String → DiscCause → SetupError
  | manifestMissingFieldError : String → String → SetupError
  | manifestNameMismatchError : String → String → SetupError
  | moduleValidationError : String → String → String → SetupError
  | manifestEntryNotFoundError : String → String → SetupError
  | moduleLoadError : String → SetupError
  | entryPointMissingInitError : String → SetupError
  | moduleInitializationError : String → SetupError
deriving DecidableEq, Repr

/-- A registry record (ModuleInfo in types.ts).  Every field is optional
because setModuleInfo merges partial updates with an object spread: a
field a given update does not mention keeps its previous value, and a
record starts from the empty object. -/
structure ModuleInfo where
  name : Option String := none
  stage : Option Stage := none
  success : Option Bool := none
  error : Option SetupError := none
  manifest : Option StoredManifest := none
  initTime : Option Int := none

/-- The object spread of setModuleInfo: fields present in the update win,
absent fields fall back to the old record. -/
def mergeInfo (old upd : ModuleInfo) : ModuleInfo where
  name := upd.name <|> old.name
  stage := upd.stage <|> old.stage
  success := upd.success <|> old.success
  error := upd.error <|> old.error
  manifest := upd.manifest <|> old.manifest
  initTime := upd.initTime <|> old.initTime

/-- Map.set for a plain insertion-ordered map: replace in place when the
key exists, append otherwise. -/
def assocSet {α : Type} : List (String × α) → String → α → List (String × α)
  | [], k, v => [(k, v)]
  | (k', v') :: rest, k, v =>
      if k' = k then (k, v) :: rest else (k', v') :: assocSet rest k v

/-- The process-wide mutable state of modules.ts: the modules Map, the
initOrder array, setupTime, and the two setup flags, plus a clock cursor
for Date.now calls. -/
structure KState where
  modules : List (String × ModuleInfo) := []
  initOrder : List String := []
  setupTime : Int := 0
  isSetupComplete : Bool := false
  isSetupInProgress : Bool := false
  clock : Nat := 0

/-- State at process start: empty registry, empty log, flags down. -/
def initK : KState := {}

/-- setModuleInfo of modules.ts: modules.set(name, merge of the existing
record (or the empty object) with the update). -/
def assocUpdate : List (String × ModuleInfo) → String → ModuleInfo → List (String × ModuleInfo)
  | [], k, u => [(k, mergeInfo {} u)]
  | (k', v) :: rest, k, u =>
      if k' = k then (k, mergeInfo v u) :: rest
      else (k', v) :: assocUpdate rest k u

def setModuleInfo (st : KState) (name : String) (upd : ModuleInfo) : KState :=
  { st with modules := assocUpdate st.modules name upd }

/-- What reading and parsing the manifest.json of one directory yields:
the read threw, the parse threw, or a parsed value came back. -/
inductive ReadResult where
  | ioError : ReadResult
  | parseError : ReadResult
  | ok : JVal → ReadResult

/-- Behaviour of a module init function when invoked and awaited. -/
inductive InitBehavior where
  | completes : InitBehavior
  | throws : InitBehavior
deriving DecidableEq, Repr

/-- The init export found on a dynamically imported entry module.  The
source checks (not init or typeof init is not a function); a function is
always truthy, so the check partitions values into functions and
everything else. -/
inductive InitExport where
  | notFunction : InitExport
  | fn : InitBehavior → InitExport

/-- Result of the dynamic import of an entry file. -/
inductive ImportResult where
  | importError : ImportResult
  | ok : InitExport → ImportResult

/-- The external world the pipeline runs against: the subdirectory names
readdir finds under the modules root, the per-directory manifest read
and parse outcome, the existsSync answer for a candidate entry file, the
dynamic import outcome for a module name and entry, and the wall clock
(the value of the k-th Date.now call). -/
structure Env where
  directories : List String
  readManifest : String → ReadResult
  entryExists : String → String → Bool
  importEntry : String → String → ImportResult
  timeAt : Nat → Int

/-- One Date.now call: read the clock at the cursor and advance it. -/
def tick (env : Env) (st : KState) : Int × KState :=
  (env.timeAt st.clock, { st with clock := st.clock + 1 })

/-- Code-unit comparison of two character lists, as the default
Array.prototype.sort comparator orders strings. -/
def listLt : List Char → List Char → Bool
  | [], [] => false
  | [], _ :: _ => true
  | _ :: _, [] => false
  | a :: as, b :: bs =>
      if a < b then true
      else if b < a then false
      else listLt as bs

def strLtb (a b : String) : Bool := listLt a.data b.data

def strLeb (a b : String) : Bool := !(strLtb b a)

/-- The ordering the default Array.prototype.sort comparator induces on
strings: a is at most b when b is not strictly below a. -/
def StrLe (a b : String) : Prop := strLeb a b = true

instance : DecidableRel StrLe := fun a b => instDecidableEqBool (strLeb a b) true

/-- The sort() call in discover: sort the directory names by the
code-unit string order. -/
def sortStrings (l : List String) : List String := List.insertionSort StrLe l

/-- The shape gate in discover: typeof manifest must be the string
object and Array.isArray(manifest) must be false.  In JavaScript,
typeof null is the string object, so null passes this gate. -/
def jsObjectNotArray : JVal → Bool
  | .jnull => true
  | .jobj _ => true
  | _ => false

/-- Suffix test over character lists, for entry.endsWith. -/
def revEndsWith : List Char → List Char → Bool
  | _, [] => true
  | [], _ :: _ => false
  | a :: as, b :: bs => (a = b) && revEndsWith as bs

def endsWithB (s suff : String) : Bool :=
  revEndsWith s.data.reverse suff.data.reverse

/-- The destructuring of the validate function: const (name, entry) =
manifest.  Destructuring null throws a TypeError (none); on a non-null
non-object value the properties are simply absent (undefined). -/
def jsDestructNameEntry : JVal → Option (Option JVal × Option JVal)
  | .jnull => none
  | .jobj fs => some (fs.lookup "name", fs.lookup "entry")
  | _ => some (none, none)

/-- The combined field test of validate: (not v or typeof v is not the
string string) fails exactly when the value is not a nonempty string.
Returns the string when the test passes. -/
def truthyStr : Option JVal → Option String
  | some (.jstr s) => if s.data = [] then none else some s
  | _ => none

/-- entry.endsWith(.ts) or entry.endsWith(.js). -/
def sourceFileExt (entry : String) : Bool :=
  endsWithB entry ".ts" || endsWithB entry ".js"

/-- The error-selection chain of validate, first violation wins; the
outer none is the TypeError thrown by destructuring null, the inner
Option is the selected validation error, if any. -/
def validationOutcome (env : Env) (dirName : String) (v : JVal) :
    Option (Option SetupError) :=
  match jsDestructNameEntry v with
  | none => none
  | some (nameV, entryV) =>
    some (match truthyStr nameV with
      | none => some (.manifestMissingFieldError dirName "name")
      | some name =>
        match truthyStr entryV with
        | none => some (.manifestMissingFieldError dirName "entry")
        | some entry =>
          if name ≠ dirName then
            some (.manifestNameMismatchError dirName name)
          else if !(sourceFileExt entry) then
            some (.moduleValidationError dirName entry
              "Entrypoint must be TypeScript or JavaScript")
          else if !(env.entryExists dirName entry) then
            some (.manifestEntryNotFoundError dirName entry)
          else none)

/-- The validate function: select an error, record failure and return
false, or record success and return true.  none models the TypeError
escaping validate when the manifest is null. -/
def validate (env : Env) (dirName : String) (manifest : StoredManifest)
    (st : KState) : Option (Bool × KState) :=
  match validationOutcome env dirName manifest.val with
  | none => none
  | some (some e) =>
      some (false, setModuleInfo st dirName
        { success := some false, stage := some .validation, error := some e })
  | some none =>
      some (true, setModuleInfo st dirName
        { success := some true, stage := some .validation })

/-- Property read used by load: manifest.name and manifest.entry as
strings (load runs only on validated manifests, where both are nonempty
strings). -/
def jsFieldStr (v : JVal) (key : String) : String :=
  match v with
  | .jobj fs =>
    match fs.lookup key with
    | some (.jstr s) => s
    | _ => ""
  | _ => ""

/-- The first discover loop: for each directory in sorted order, read
and parse its manifest; on success freeze it and put it in the output
map, on any thrown error record a discovery failure. -/
def discoverLoop (env : Env) :
    List String → List (String × StoredManifest) → KState →
    List (String × StoredManifest) × KState
  | [], out, st => (out, st)
  | dir :: rest, out, st =>
    match env.readManifest dir with
    | .ioError =>
        discoverLoop env rest out (setModuleInfo st dir
          { name := some dir, success := some false, stage := some .discovery,
            error := some (.moduleDiscoveryError dir .ioError) })
    | .parseError =>
        discoverLoop env rest out (setModuleInfo st dir
          { name := some dir, success := some false, stage := some .discovery,
            error := some (.moduleDiscoveryError dir .parseError) })
    | .ok v =>
        if jsObjectNotArray v then
          discoverLoop env rest (assocSet out dir ⟨v, true⟩) st
        else
          discoverLoop env rest out (setModuleInfo st dir
            { name := some dir, success := some false, stage := some .discovery,
              error := some (.moduleDiscoveryError dir .notAnObject) })

/-- The second discover loop: record a discovery success for every entry
of the output map. -/
def discoverRecord : List (String × StoredManifest) → KState → KState
  | [], st => st
  | (name, m) :: rest, st =>
      discoverRecord rest (setModuleInfo st name
        { name := some name, success := some true, stage := some .discovery,
          manifest := some m })

/-- The discover function: sorted directory listing, manifest read loop,
then the success-record loop; returns the name-to-manifest map. -/
def discover (env : Env) (st : KState) :
    List (String × StoredManifest) × KState :=
  let dirs := sortStrings env.directories
  let (out, st1) := discoverLoop env dirs [] st
  (out, discoverRecord out st1)

/-- The load function: dynamic import of the entry file keyed by the
manifest name; record the outcome and return the init callable, if any. -/
def load (env : Env) (manifest : StoredManifest) (st : KState) :
    Option InitBehavior × KState :=
  let name := jsFieldStr manifest.val "name"
  let entry := jsFieldStr manifest.val "entry"
  match env.importEntry name entry with
  | .importError =>
      (none, setModuleInfo st name
        { success := some false, stage := some .loading,
          error := some (.moduleLoadError name) })
  | .ok .notFunction =>
      (none, setModuleInfo st name
        { success := some false, stage := some .loading,
          error := some (.entryPointMissingInitError name) })
  | .ok (.fn b) =>
      (some b, setModuleInfo st name
        { success := some true, stage := some .loading })

/-- The module initialization step: Date.now, run init; on completion a
second Date.now, append to initOrder and record success with the elapsed
time; on a throw record an initialization failure (the second Date.now
is never reached). -/
def initModule (env : Env) (name : String) (b : InitBehavior)
    (st : KState) : KState :=
  let (t0, st1) := tick env st
  match b with
  | .completes =>
      let (t1, st2) := tick env st1
      let st3 := { st2 with initOrder := st2.initOrder ++ [name] }
      setModuleInfo st3 name
        { success := some true, stage := some .initialization,
          initTime := some (t1 - t0) }
  | .throws =>
      setModuleInfo st1 name
        { success := some false, stage := some .initialization,
          error := some (.moduleInitializationError name) }

/-- The validation loop of setup: validate each discovered module and
collect the ones that pass; a TypeError escaping validate escapes the
loop (none). -/
def validateLoop (env : Env) :
    List (String × StoredManifest) → List (String × StoredManifest) →
    KState → Option (List (String × StoredManifest) × KState)
  | [], mans, st => some (mans, st)
  | (name, m) :: rest, mans, st =>
    match validate env name m st with
    | none => none
    | some (ok, st') =>
        validateLoop env rest (if ok then assocSet mans name m else mans) st'

/-- The loading loop of setup: load each validated module and collect
the init callables that came back. -/
def loadLoop (env : Env) :
    List (String × StoredManifest) → List (String × InitBehavior) →
    KState → List (String × InitBehavior) × KState
  | [], inits, st => (inits, st)
  | (name, m) :: rest, inits, st =>
    match load env m st with
    | (some b, st') => loadLoop env rest (assocSet inits name b) st'
    | (none, st') => loadLoop env rest inits st'

/-- The initialization loop of setup: run each collected init in order. -/
def initLoop (env : Env) : List (String × InitBehavior) → KState → KState
  | [], st => st
  | (name, b) :: rest, st => initLoop env rest (initModule env name b st)

/-- The setup orchestrator: idempotency gate, then the four stages, then
the duration and the flag flip.  none models the run rejecting (an
exception escaping the pipeline). -/
def setup (env : Env) (st : KState) : Option KState :=
  if st.isSetupComplete || st.isSetupInProgress then some st
  else
    let st1 := { st with isSetupInProgress := true }
    let (t0, st2) := tick env st1
    let (out, st3) := discover env st2
    match validateLoop env out [] st3 with
    | none => none
    | some (mans, st4) =>
      let (inits, st5) := loadLoop env mans [] st4
      let st6 := initLoop env inits st5
      let (t1, st7) := tick env st6
      some { st7 with setupTime := t1 - t0,
                      isSetupInProgress := false, isSetupComplete := true }

/-- Truthiness of the success field as getReport and isModuleSetUp read
it (an absent field is undefined, hence falsy). -/
def infoSuccess (m : ModuleInfo) : Bool := m.success.getD false

/-- The diagnostics report shape (ModuleSystemDiagnostics). -/
structure Report where
  discovered : Nat
  validated : Nat
  loaded : Nat
  initialized : Nat
  failed : Nat
  setupTime : Int
  errors : List (Option SetupError)
  moduleDetails : List ModuleInfo

/-- getReport: the counting filters over the registry values, verbatim
from the source. -/
def getReport (st : KState) : Report :=
  let moduleInfo := st.modules.map Prod.snd
  { discovered := moduleInfo.length
    validated := (moduleInfo.filter (fun m =>
        (decide (m.stage = some .validation) && infoSuccess m) ||
        decide (m.stage = some .loading) ||
        decide (m.stage = some .initialization))).length
    loaded := (moduleInfo.filter (fun m =>
        (decide (m.stage = some .loading) && infoSuccess m) ||
        decide (m.stage = some .initialization))).length
    initialized := (moduleInfo.filter (fun m =>
        decide (m.stage = some .initialization) && infoSuccess m)).length
    failed := (moduleInfo.filter (fun m => !(infoSuccess m))).length
    setupTime := st.setupTime
    errors := (moduleInfo.filter (fun m => !(infoSuccess m))).map (·.error)
    moduleDetails := moduleInfo }

/-- getLoadOrder: a copy of the init-order array. -/
def getLoadOrder (st : KState) : List String := st.initOrder

/-- isModuleSetUp: modules.get(name)?.success or false. -/
def isModuleSetUp (st : KState) (name : String) : Bool :=
  match st.modules.lookup name with
  | some m => infoSuccess m
  | none => false

/-- getManifests: manifests of records at initialization success. -/
def getManifests (st : KState) : List (Option StoredManifest) :=
  ((st.modules.map Prod.snd).filter (fun m =>
      infoSuccess m && decide (m.stage = some .initialization))).map (·.manifest)

/-- getModuleInfo: point lookup in the registry. -/
def getModuleInfo (st : KState) (name : String) : Option ModuleInfo :=
  st.modules.lookup name

/-! Derived per-directory outcome functions.  These recompute, directly
from the environment, what each stage of the pipeline decides for one
directory; the stage lemmas below prove that the pipeline state agrees
with them. -/

/-- What discovery yields for one directory: the frozen manifest when
the read, the parse and the shape gate all pass, none otherwise. -/
def discOutcome (env : Env) (d : String) : Option StoredManifest :=
  match env.readManifest d with
  | .ok v => if jsObjectNotArray v then some ⟨v, true⟩ else none
  | _ => none

/-- Which of the three discovery failure causes applies (meaningful only
when discOutcome is none). -/
def discCause (env : Env) (d : String) : DiscCause :=
  match env.readManifest d with
  | .ioError => .ioError
  | .parseError => .parseError
  | .ok _ => .notAnObject

/-- The registry record discovery writes for one directory. -/
def discInfo (env : Env) (d : String) : ModuleInfo :=
  match discOutcome env d with
  | some m =>
      { name := some d, success := some true, stage := some .discovery,
        manifest := some m }
  | none =>
      { name := some d, success := some false, stage := some .discovery,
        error := some (.moduleDiscoveryError d (discCause env d)) }

def discOk (env : Env) (d : String) : Bool := (discOutcome env d).isSome

/-- Whether the directory passes validation (in particular it must have
been discovered, and its manifest must not be null). -/
def valOk (env : Env) (d : String) : Bool :=
  match discOutcome env d with
  | some m => decide (validationOutcome env d m.val = some none)
  | none => false

/-- The init callable the loader extracts from one manifest, when
its import succeeds and exposes a function. -/
def importRes (env : Env) (m : StoredManifest) : Option InitBehavior :=
  match env.importEntry (jsFieldStr m.val "name") (jsFieldStr m.val "entry") with
  | .ok (.fn b) => some b
  | _ => none

/-- The init callable the loader would extract for this
directory, when its import succeeds and exposes a function. -/
def loadRes (env : Env) (d : String) : Option InitBehavior :=
  match discOutcome env d with
  | some m => importRes env m
  | none => none

def loadOk (env : Env) (d : String) : Bool :=
  valOk env d && (loadRes env d).isSome

def initOk (env : Env) (d : String) : Bool :=
  loadOk env d && decide (loadRes env d = some .completes)

/-- The last stage the pipeline attempts for a directory (assuming the
run completes, i.e. no manifest is null). -/
def lastStage (env : Env) (d : String) : Stage :=
  if !(discOk env d) then .discovery
  else if !(valOk env d) then .validation
  else if !(loadOk env d) then .loading
  else .initialization

/-- Whether the directory passed the given stage (cumulative: passing a
stage presupposes passing the earlier ones). -/
def stageReached (env : Env) (d : String) : Stage → Bool
  | .discovery => discOk env d
  | .validation => valOk env d
  | .loading => loadOk env d
  | .initialization => initOk env d

/-- The registry update validate writes for one directory. -/
def valUpd (env : Env) (dirName : String) (v : JVal) : ModuleInfo :=
  match validationOutcome env dirName v with
  | some (some e) =>
      { success := some false, stage := some .validation, error := some e }
  | some none => { success := some true, stage := some .validation }
  | none => {}

/-- The registry update load writes for one manifest. -/
def loadUpd (env : Env) (m : StoredManifest) : ModuleInfo :=
  match env.importEntry (jsFieldStr m.val "name") (jsFieldStr m.val "entry") with
  | .importError =>
      { success := some false, stage := some .loading,
        error := some (.moduleLoadError (jsFieldStr m.val "name")) }
  | .ok .notFunction =>
      { success := some false, stage := some .loading,
        error := some (.entryPointMissingInitError (jsFieldStr m.val "name")) }
  | .ok (.fn _) => { success := some true, stage := some .loading }

/-- The registry update the initializer writes for one module; t is the
measured duration (some value) on success, irrelevant on failure. -/
def initUpd (name : String) (b : InitBehavior) (t : Option Int) : ModuleInfo :=
  match b with
  | .completes =>
      { success := some true, stage := some .initialization, initTime := t }
  | .throws =>
      { success := some false, stage := some .initialization,
        error := some (.moduleInitializationError name) }

/-- All state components other than the registry are unchanged (the
clock included). -/
def framePreserved (st st' : KState) : Prop :=
  st'.initOrder = st.initOrder ∧ st'.setupTime = st.setupTime ∧
  st'.isSetupComplete = st.isSetupComplete ∧
  st'.isSetupInProgress = st.isSetupInProgress ∧ st'.clock = st.clock

/-- Position of a stage in pipeline order. -/
def stageIdx : Stage → Nat
  | .discovery => 0
  | .validation => 1
  | .loading => 2
  | .initialization => 3

/-- Earlier of two stages in pipeline order. -/
def minStage (s t : Stage) : Stage := if stageIdx s ≤ stageIdx t then s else t

/-- The intermediate states of a fresh setup run, one per completed
stage, labelled with the stage that has just finished.  When validation
rejects (a null manifest) only the post-discovery state exists. -/
def pipelineStates (env : Env) : List (Stage × KState) :=
  let st1 := { initK with isSetupInProgress := true }
  let st2 := (tick env st1).2
  let (out, st3) := discover env st2
  match validateLoop env out [] st3 with
  | none => [(.discovery, st3)]
  | some (mans, st4) =>
    let (inits, st5) := loadLoop env mans [] st4
    let st6 := initLoop env inits st5
    [(.discovery, st3), (.validation, st4), (.loading, st5),
     (.initialization, st6)]

/-- The registry invariant at the boundary after stage k: one record
per module at most, every record belongs to a listed directory, its
stage field is the last stage attempted so far, and its success field
says whether that stage passed. -/
def registryInvAt (env : Env) (k : Stage) (st : KState) : Prop :=
  (st.modules.map Prod.fst).Nodup ∧
  ∀ p ∈ st.modules,
    p.1 ∈ env.directories ∧
    p.2.stage = some (minStage (lastStage env p.1) k) ∧
    p.2.success = some (stageReached env p.1 (minStage (lastStage env p.1) k))

/-! Concrete environments used as failing inputs and witnesses. -/

/-- One module directory whose manifest file holds the JSON document
null: it parses, typeof null is the string object, so the shape gate
passes it on to validation. -/
def envNull : Env where
  directories := ["mod-a"]
  readManifest := fun _ => .ok .jnull
  entryExists := fun _ _ => false
  importEntry := fun _ _ => .importError
  timeAt := fun _ => 0

/-- Two well-formed modules: the initializer of w-a completes and the
initializer of w-b throws. -/
def envW : Env where
  directories := ["w-b", "w-a"]
  readManifest := fun d =>
    .ok (.jobj [("name", .jstr d), ("entry", .jstr "index.ts")])
  entryExists := fun _ _ => true
  importEntry := fun n _ =>
    if n = "w-b" then .ok (.fn .throws) else .ok (.fn .completes)
  timeAt := fun k => (k : Int)

/-- The state a fresh setup run against envW ends in. -/
def stW : KState := (setup envW initK).getD initK

/-- The state a second setup call, after the envW run, ends in. -/
def stW2 : KState := (setup envW stW).getD initK

/-! Order facts about the string comparator. -/

theorem listLt_asymm : ∀ x y : List Char, listLt x y = true → listLt y x = false
  | [], [] => by simp [listLt]
  | [], _ :: _ => by simp [listLt]
  | _ :: _, [] => by simp [listLt]
  | a :: as, b :: bs => by
    simp only [listLt]
    rcases lt_trichotomy a b with h | h | h
    · intro _
      simp [h, lt_asymm h]
    · subst h
      simp only [lt_irrefl, if_false]
      exact listLt_asymm as bs
    · intro hx
      rw [if_neg (lt_asymm h), if_pos h] at hx
      cases hx

theorem listLt_conn : ∀ x y : List Char,
    listLt x y = false → listLt y x = false → x = y
  | [], [] => by simp
  | [], _ :: _ => by simp [listLt]
  | _ :: _, [] => by simp [listLt]
  | a :: as, b :: bs => by
    simp only [listLt]
    rcases lt_trichotomy a b with h | h | h
    · intro hxy
      rw [if_pos h] at hxy
      cases hxy
    · subst h
      simp only [lt_irrefl, if_false]
      intro h1 h2
      rw [listLt_conn as bs h1 h2]
    · intro _ hyx
      rw [if_pos h] at hyx
      cases hyx

theorem listLt_trans : ∀ x y z : List Char,
    listLt x y = true → listLt y z = true → listLt x z = true
  | [], [], _ => by simp [listLt]
  | [], _ :: _, [] => by simp [listLt]
  | [], _ :: _, _ :: _ => by simp [listLt]
  | _ :: _, [], _ => by simp [listLt]
  | _ :: _, _ :: _, [] => by simp [listLt]
  | a :: as, b :: bs, c :: cs => by
    simp only [listLt]
    rcases lt_trichotomy a b with hab | hab | hab
    · rcases lt_trichotomy b c with hbc | hbc | hbc
      · intro _ _
        simp [lt_trans hab hbc]
      · subst hbc
        intro _ _
        simp [hab]
      · intro _ h2
        rw [if_neg (lt_asymm hbc), if_pos hbc] at h2
        cases h2
    · subst hab
      simp only [lt_irrefl, if_false]
      rcases lt_trichotomy a c with hac | hac | hac
      · intro _ _
        simp [hac]
      · subst hac
        simp only [lt_irrefl, if_false]
        exact listLt_trans as bs cs
      · intro _ h2
        rw [if_neg (lt_asymm hac), if_pos hac] at h2
        cases h2
    · intro h1
      rw [if_neg (lt_asymm hab), if_pos hab] at h1
      cases h1

theorem strLe_total (a b : String) : StrLe a b ∨ StrLe b a := by
  unfold StrLe strLeb
  rcases h : strLtb b a with _ | _
  · left
    simp [h]
  · right
    unfold strLtb at h ⊢
    simp [listLt_asymm _ _ h]

theorem strLe_trans (a b c : String) (hab : StrLe a b) (hbc : StrLe b c) :
    StrLe a c := by
  unfold StrLe strLeb strLtb at hab hbc ⊢
  simp only [Bool.not_eq_true'] at hab hbc ⊢
  rcases h1 : listLt a.data b.data with _ | _
  · have hab' := listLt_conn _ _ h1 hab
    rw [hab']
    exact hbc
  · by_contra hca
    simp only [Bool.not_eq_false] at hca
    exact absurd (listLt_trans _ _ _ hca h1) (by simp [hbc])

theorem sortStrings_perm (l : List String) : List.Perm (sortStrings l) l :=
  List.perm_insertionSort StrLe l

theorem sortStrings_pairwise (l : List String) :
    (sortStrings l).Pairwise StrLe :=
  @List.sorted_insertionSort String StrLe _ ⟨strLe_total⟩ ⟨fun _ _ _ => strLe_trans _ _ _⟩ l

theorem mem_sortStrings {l : List String} {a : String} :
    a ∈ sortStrings l ↔ a ∈ l :=
  (sortStrings_perm l).mem_iff

theorem sortStrings_nodup {l : List String} (h : l.Nodup) :
    (sortStrings l).Nodup :=
  (sortStrings_perm l).nodup_iff.2 h

/-! Association-list lemmas for the registry and the stage maps. -/

theorem optOrElse_none {α : Type} (o : Option α) : (o <|> none) = o := by
  cases o <;> rfl

theorem mergeInfo_emptyOld (u : ModuleInfo) : mergeInfo {} u = u := by
  cases u
  simp [mergeInfo, optOrElse_none]

theorem lookup_none_iff_notmem {α : Type} (m : List (String × α)) (k : String) :
    m.lookup k = none ↔ k ∉ m.map Prod.fst := by
  induction m with
  | nil => simp
  | cons p rest ih =>
    obtain ⟨k', v'⟩ := p
    by_cases h : k = k'
    · subst h
      simp [List.lookup_cons]
    · simp [List.lookup_cons, beq_eq_false_iff_ne.mpr h, ih, h]

theorem mem_of_lookup_eq_some {α : Type} {m : List (String × α)} {k : String}
    {v : α} (h : m.lookup k = some v) : (k, v) ∈ m := by
  induction m with
  | nil => cases h
  | cons p rest ih =>
    obtain ⟨k', v'⟩ := p
    by_cases hk : k = k'
    · subst hk
      simp [List.lookup_cons] at h
      simp [h]
    · simp only [List.lookup_cons, beq_eq_false_iff_ne.mpr hk] at h
      exact List.mem_cons_of_mem _ (ih h)

theorem lookup_eq_some_of_mem {α : Type} {m : List (String × α)}
    (hnd : (m.map Prod.fst).Nodup) {k : String} {v : α} (hmem : (k, v) ∈ m) :
    m.lookup k = some v := by
  induction m with
  | nil => cases hmem
  | cons p rest ih =>
    obtain ⟨k', v'⟩ := p
    simp only [List.map_cons, List.nodup_cons] at hnd
    rcases List.mem_cons.1 hmem with h | h
    · cases h
      simp [List.lookup_cons]
    · have hk : k ≠ k' := by
        intro he
        subst he
        exact hnd.1 (List.mem_map.2 ⟨(k, v), h, rfl⟩)
      simp only [List.lookup_cons, beq_eq_false_iff_ne.mpr hk]
      exact ih hnd.2 h

theorem lookup_assocSet_self {α : Type} (m : List (String × α)) (k : String)
    (v : α) : (assocSet m k v).lookup k = some v := by
  induction m with
  | nil => simp [assocSet, List.lookup_cons]
  | cons p rest ih =>
    obtain ⟨k', v'⟩ := p
    by_cases h : k' = k
    · subst h
      simp [assocSet, List.lookup_cons]
    · simp [assocSet, h, List.lookup_cons, beq_eq_false_iff_ne.mpr (Ne.symm h), ih]

theorem lookup_assocSet_ne {α : Type} (m : List (String × α)) {k k' : String}
    (v : α) (h : k' ≠ k) : (assocSet m k v).lookup k' = m.lookup k' := by
  induction m with
  | nil => simp [assocSet, List.lookup_cons, beq_eq_false_iff_ne.mpr h]
  | cons p rest ih =>
    obtain ⟨k0, v0⟩ := p
    by_cases h0 : k0 = k
    · subst h0
      simp [assocSet, List.lookup_cons, beq_eq_false_iff_ne.mpr h]
    · simp only [assocSet, if_neg h0]
      by_cases h1 : k' = k0
      · subst h1
        simp [List.lookup_cons]
      · simp [List.lookup_cons, beq_eq_false_iff_ne.mpr h1, ih]

theorem assocSet_eq_append {α : Type} {m : List (String × α)} {k : String}
    (v : α) (h : k ∉ m.map Prod.fst) : assocSet m k v = m ++ [(k, v)] := by
  induction m with
  | nil => simp [assocSet]
  | cons p rest ih =>
    obtain ⟨k', v'⟩ := p
    simp only [List.map_cons, List.mem_cons, not_or] at h
    simp [assocSet, Ne.symm h.1, ih h.2]

theorem keys_assocSet_of_mem {α : Type} {m : List (String × α)} {k : String}
    (v : α) (h : k ∈ m.map Prod.fst) :
    (assocSet m k v).map Prod.fst = m.map Prod.fst := by
  induction m with
  | nil => cases h
  | cons p rest ih =>
    obtain ⟨k', v'⟩ := p
    by_cases hk : k' = k
    · subst hk
      simp [assocSet]
    · simp only [List.map_cons, List.mem_cons] at h
      rcases h with h | h
      · exact absurd h.symm hk
      · simp [assocSet, hk, ih h]

theorem keys_assocSet {α : Type} (m : List (String × α)) (k : String) (v : α) :
    (assocSet m k v).map Prod.fst =
      if k ∈ m.map Prod.fst then m.map Prod.fst else m.map Prod.fst ++ [k] := by
  by_cases h : k ∈ m.map Prod.fst
  · rw [if_pos h, keys_assocSet_of_mem v h]
  · rw [if_neg h, assocSet_eq_append v h]
    simp

theorem nodup_keys_assocSet {α : Type} {m : List (String × α)} (k : String)
    (v : α) (hnd : (m.map Prod.fst).Nodup) :
    ((assocSet m k v).map Prod.fst).Nodup := by
  rw [keys_assocSet]
  by_cases h : k ∈ m.map Prod.fst
  · rwa [if_pos h]
  · rw [if_neg h]
    simp [List.nodup_append, hnd, h]

theorem lookup_assocUpdate_self (m : List (String × ModuleInfo)) (k : String)
    (u : ModuleInfo) :
    (assocUpdate m k u).lookup k = some (mergeInfo ((m.lookup k).getD {}) u) := by
  induction m with
  | nil => simp [assocUpdate, List.lookup_cons]
  | cons p rest ih =>
    obtain ⟨k', v'⟩ := p
    by_cases h : k' = k
    · subst h
      simp [assocUpdate, List.lookup_cons]
    · simp [assocUpdate, h, List.lookup_cons,
        beq_eq_false_iff_ne.mpr (Ne.symm h), ih]

theorem lookup_assocUpdate_ne (m : List (String × ModuleInfo)) {k k' : String}
    (u : ModuleInfo) (h : k' ≠ k) :
    (assocUpdate m k u).lookup k' = m.lookup k' := by
  induction m with
  | nil => simp [assocUpdate, List.lookup_cons, beq_eq_false_iff_ne.mpr h]
  | cons p rest ih =>
    obtain ⟨k0, v0⟩ := p
    by_cases h0 : k0 = k
    · subst h0
      simp [assocUpdate, List.lookup_cons, beq_eq_false_iff_ne.mpr h]
    · simp only [assocUpdate, if_neg h0]
      by_cases h1 : k' = k0
      · subst h1
        simp [List.lookup_cons]
      · simp [List.lookup_cons, beq_eq_false_iff_ne.mpr h1, ih]

theorem assocUpdate_eq_append {m : List (String × ModuleInfo)} {k : String}
    (u : ModuleInfo) (h : k ∉ m.map Prod.fst) :
    assocUpdate m k u = m ++ [(k, mergeInfo {} u)] := by
  induction m with
  | nil => simp [assocUpdate]
  | cons p rest ih =>
    obtain ⟨k', v'⟩ := p
    simp only [List.map_cons, List.mem_cons, not_or] at h
    simp [assocUpdate, Ne.symm h.1, ih h.2]

theorem keys_assocUpdate_of_mem {m : List (String × ModuleInfo)} {k : String}
    (u : ModuleInfo) (h : k ∈ m.map Prod.fst) :
    (assocUpdate m k u).map Prod.fst = m.map Prod.fst := by
  induction m with
  | nil => cases h
  | cons p rest ih =>
    obtain ⟨k', v'⟩ := p
    by_cases hk : k' = k
    · subst hk
      simp [assocUpdate]
    · simp only [List.map_cons, List.mem_cons] at h
      rcases h with h | h
      · exact absurd h.symm hk
      · simp [assocUpdate, hk, ih h]

theorem keys_assocUpdate (m : List (String × ModuleInfo)) (k : String)
    (u : ModuleInfo) :
    (assocUpdate m k u).map Prod.fst =
      if k ∈ m.map Prod.fst then m.map Prod.fst else m.map Prod.fst ++ [k] := by
  by_cases h : k ∈ m.map Prod.fst
  · rw [if_pos h, keys_assocUpdate_of_mem u h]
  · rw [if_neg h, assocUpdate_eq_append u h]
    simp

theorem nodup_keys_assocUpdate {m : List (String × ModuleInfo)} (k : String)
    (u : ModuleInfo) (hnd : (m.map Prod.fst).Nodup) :
    ((assocUpdate m k u).map Prod.fst).Nodup := by
  rw [keys_assocUpdate]
  by_cases h : k ∈ m.map Prod.fst
  · rwa [if_pos h]
  · rw [if_neg h]
    simp [List.nodup_append, hnd, h]

/-! Stage lemmas: discovery. -/

theorem framePreserved_setModuleInfo (st : KState) (n : String)
    (u : ModuleInfo) : framePreserved st (setModuleInfo st n u) := by
  simp [framePreserved, setModuleInfo]

theorem framePreserved_trans {s1 s2 s3 : KState}
    (h1 : framePreserved s1 s2) (h2 : framePreserved s2 s3) :
    framePreserved s1 s3 := by
  obtain ⟨a1, b1, c1, d1, e1⟩ := h1
  obtain ⟨a2, b2, c2, d2, e2⟩ := h2
  exact ⟨a2.trans a1, b2.trans b1, c2.trans c1, d2.trans d1, e2.trans e1⟩

theorem framePreserved_rfl (st : KState) : framePreserved st st :=
  ⟨rfl, rfl, rfl, rfl, rfl⟩

theorem discoverLoop_frame (env : Env) (dirs : List String)
    (out : List (String × StoredManifest)) (st : KState) :
    framePreserved st (discoverLoop env dirs out st).2 := by
  induction dirs generalizing out st with
  | nil => exact framePreserved_rfl st
  | cons d rest ih =>
    cases hr : env.readManifest d with
    | ioError =>
        simp only [discoverLoop, hr]
        exact framePreserved_trans (framePreserved_setModuleInfo ..) (ih ..)
    | parseError =>
        simp only [discoverLoop, hr]
        exact framePreserved_trans (framePreserved_setModuleInfo ..) (ih ..)
    | ok v =>
        by_cases hobj : jsObjectNotArray v
        · simp only [discoverLoop, hr, hobj, if_true]
          exact ih ..
        · simp only [discoverLoop, hr, hobj, Bool.false_eq_true, if_false]
          exact framePreserved_trans (framePreserved_setModuleInfo ..) (ih ..)

theorem discoverLoop_lookup_notmem (env : Env) (dirs : List String)
    (out : List (String × StoredManifest)) (st : KState) {k : String}
    (h : k ∉ dirs) :
    ((discoverLoop env dirs out st).2).modules.lookup k =
      st.modules.lookup k := by
  induction dirs generalizing out st with
  | nil => rfl
  | cons d rest ih =>
    have hd : k ≠ d := fun he => h (by simp [he])
    have hrest : k ∉ rest := fun hr => h (by simp [hr])
    cases hr : env.readManifest d with
    | ioError =>
        simp only [discoverLoop, hr]
        rw [ih _ _ hrest]
        simp [setModuleInfo, lookup_assocUpdate_ne _ _ hd]
    | parseError =>
        simp only [discoverLoop, hr]
        rw [ih _ _ hrest]
        simp [setModuleInfo, lookup_assocUpdate_ne _ _ hd]
    | ok v =>
        by_cases hobj : jsObjectNotArray v
        · simp only [discoverLoop, hr, hobj, if_true]
          exact ih _ _ hrest
        · simp only [discoverLoop, hr, hobj, Bool.false_eq_true, if_false]
          rw [ih _ _ hrest]
          simp [setModuleInfo, lookup_assocUpdate_ne _ _ hd]

theorem discoverLoop_lookup_mem (env : Env) {dirs : List String}
    (hnd : dirs.Nodup) {k : String} (hk : k ∈ dirs)
    (out : List (String × StoredManifest)) (st : KState)
    (h0 : st.modules.lookup k = none) :
    ((discoverLoop env dirs out st).2).modules.lookup k =
      if discOk env k then none else some (discInfo env k) := by
  induction dirs generalizing out st with
  | nil => cases hk
  | cons d rest ih =>
    rcases List.mem_cons.1 hk with he | hmem
    · subst he
      have hrest : k ∉ rest := (List.nodup_cons.1 hnd).1
      cases hr : env.readManifest k with
      | ioError =>
          simp only [discoverLoop, hr]
          rw [discoverLoop_lookup_notmem env rest _ _ hrest]
          simp [setModuleInfo, lookup_assocUpdate_self, h0, mergeInfo_emptyOld,
            discOk, discOutcome, discInfo, discCause, hr]
      | parseError =>
          simp only [discoverLoop, hr]
          rw [discoverLoop_lookup_notmem env rest _ _ hrest]
          simp [setModuleInfo, lookup_assocUpdate_self, h0, mergeInfo_emptyOld,
            discOk, discOutcome, discInfo, discCause, hr]
      | ok v =>
          by_cases hobj : jsObjectNotArray v
          · simp only [discoverLoop, hr, hobj, if_true]
            rw [discoverLoop_lookup_notmem env rest _ _ hrest]
            simp [h0, discOk, discOutcome, hr, hobj]
          · simp only [discoverLoop, hr, hobj, Bool.false_eq_true, if_false]
            rw [discoverLoop_lookup_notmem env rest _ _ hrest]
            simp [setModuleInfo, lookup_assocUpdate_self, h0, mergeInfo_emptyOld,
              discOk, discOutcome, discInfo, discCause, hr, hobj]
    · have hd : k ≠ d := fun he =>
        (List.nodup_cons.1 hnd).1 (he ▸ hmem)
      have hnd' : rest.Nodup := (List.nodup_cons.1 hnd).2
      cases hr : env.readManifest d with
      | ioError =>
          simp only [discoverLoop, hr]
          exact ih hnd' hmem _ _
            (by simpa [setModuleInfo, lookup_assocUpdate_ne _ _ hd] using h0)
      | parseError =>
          simp only [discoverLoop, hr]
          exact ih hnd' hmem _ _
            (by simpa [setModuleInfo, lookup_assocUpdate_ne _ _ hd] using h0)
      | ok v =>
          by_cases hobj : jsObjectNotArray v
          · simp only [discoverLoop, hr, hobj, if_true]
            exact ih hnd' hmem _ _ h0
          · simp only [discoverLoop, hr, hobj, Bool.false_eq_true, if_false]
            exact ih hnd' hmem _ _
              (by simpa [setModuleInfo, lookup_assocUpdate_ne _ _ hd] using h0)

theorem discoverLoop_out (env : Env) {dirs : List String} (hnd : dirs.Nodup)
    (out : List (String × StoredManifest)) (st : KState)
    (hdisj : ∀ d ∈ dirs, d ∉ out.map Prod.fst) :
    (discoverLoop env dirs out st).1 =
      out ++ dirs.filterMap (fun d => (discOutcome env d).map (fun m => (d, m))) := by
  induction dirs generalizing out st with
  | nil => simp [discoverLoop]
  | cons d rest ih =>
    have hnd' : rest.Nodup := (List.nodup_cons.1 hnd).2
    cases hr : env.readManifest d with
    | ioError =>
        simp only [discoverLoop, hr]
        rw [ih hnd' _ _ (fun d' hd' => hdisj d' (List.mem_cons_of_mem _ hd'))]
        simp [discOutcome, hr]
    | parseError =>
        simp only [discoverLoop, hr]
        rw [ih hnd' _ _ (fun d' hd' => hdisj d' (List.mem_cons_of_mem _ hd'))]
        simp [discOutcome, hr]
    | ok v =>
        by_cases hobj : jsObjectNotArray v
        · simp only [discoverLoop, hr, hobj, if_true]
          rw [assocSet_eq_append _ (hdisj d (List.mem_cons_self d rest))]
          rw [ih hnd' _ _ ?_]
          · simp [discOutcome, hr, hobj]
          · intro d' hd'
            simp only [List.map_append, List.mem_append]
            rintro (hc | hc)
            · exact hdisj d' (List.mem_cons_of_mem _ hd') hc
            · simp only [List.map_cons, List.map_nil, List.mem_cons,
                List.not_mem_nil] at hc
              rcases hc with hc | hc
              · exact (List.nodup_cons.1 hnd).1 (hc ▸ hd')
              · cases hc
        · simp only [discoverLoop, hr, hobj, Bool.false_eq_true, if_false]
          rw [ih hnd' _ _ (fun d' hd' => hdisj d' (List.mem_cons_of_mem _ hd'))]
          simp [discOutcome, hr, hobj]

theorem discoverLoop_nodupkeys (env : Env) (dirs : List String)
    (out : List (String × StoredManifest)) (st : KState)
    (h : (st.modules.map Prod.fst).Nodup) :
    (((discoverLoop env dirs out st).2).modules.map Prod.fst).Nodup := by
  induction dirs generalizing out st with
  | nil => exact h
  | cons d rest ih =>
    cases hr : env.readManifest d with
    | ioError =>
        simp only [discoverLoop, hr]
        exact ih _ _ (nodup_keys_assocUpdate _ _ h)
    | parseError =>
        simp only [discoverLoop, hr]
        exact ih _ _ (nodup_keys_assocUpdate _ _ h)
    | ok v =>
        by_cases hobj : jsObjectNotArray v
        · simp only [discoverLoop, hr, hobj, if_true]
          exact ih _ _ h
        · simp only [discoverLoop, hr, hobj, Bool.false_eq_true, if_false]
          exact ih _ _ (nodup_keys_assocUpdate _ _ h)

/-! Stage lemmas: the discovery success records. -/

theorem discoverRecord_frame (out : List (String × StoredManifest))
    (st : KState) : framePreserved st (discoverRecord out st) := by
  induction out generalizing st with
  | nil => exact framePreserved_rfl st
  | cons p rest ih =>
    obtain ⟨name, m⟩ := p
    exact framePreserved_trans (framePreserved_setModuleInfo ..) (ih ..)

theorem discoverRecord_nodupkeys (out : List (String × StoredManifest))
    (st : KState) (h : (st.modules.map Prod.fst).Nodup) :
    ((discoverRecord out st).modules.map Prod.fst).Nodup := by
  induction out generalizing st with
  | nil => exact h
  | cons p rest ih =>
    obtain ⟨name, m⟩ := p
    exact ih _ (nodup_keys_assocUpdate _ _ h)

theorem discoverRecord_lookup_notmem {out : List (String × StoredManifest)}
    {st : KState} {k : String} (h : k ∉ out.map Prod.fst) :
    (discoverRecord out st).modules.lookup k = st.modules.lookup k := by
  induction out generalizing st with
  | nil => rfl
  | cons p rest ih =>
    obtain ⟨name, m⟩ := p
    simp only [List.map_cons, List.mem_cons, not_or] at h
    simp only [discoverRecord]
    rw [ih h.2]
    simp [setModuleInfo, lookup_assocUpdate_ne _ _ h.1]

theorem discoverRecord_lookup_mem {out : List (String × StoredManifest)}
    (hnd : (out.map Prod.fst).Nodup) {k : String} {m : StoredManifest}
    (hmem : (k, m) ∈ out) {st : KState} (h0 : st.modules.lookup k = none) :
    (discoverRecord out st).modules.lookup k =
      some { name := some k, success := some true, stage := some .discovery,
             manifest := some m } := by
  induction out generalizing st with
  | nil => cases hmem
  | cons p rest ih =>
    obtain ⟨name, m'⟩ := p
    simp only [List.map_cons, List.nodup_cons] at hnd
    rcases List.mem_cons.1 hmem with he | hmem'
    · cases he
      simp only [discoverRecord]
      rw [discoverRecord_lookup_notmem hnd.1]
      simp [setModuleInfo, lookup_assocUpdate_self, h0, mergeInfo_emptyOld]
    · have hk : k ≠ name := by
        intro he
        subst he
        exact hnd.1 (List.mem_map.2 ⟨(k, m), hmem', rfl⟩)
      simp only [discoverRecord]
      exact ih hnd.2 hmem'
        (by simpa [setModuleInfo, lookup_assocUpdate_ne _ _ hk] using h0)

/-! The discovery output map, characterized. -/

theorem keys_discOutput (env : Env) (l : List String) :
    (l.filterMap (fun d => (discOutcome env d).map (fun m => (d, m)))).map
        Prod.fst =
      l.filter (fun d => discOk env d) := by
  induction l with
  | nil => rfl
  | cons d rest ih =>
    cases hd : discOutcome env d with
    | none => simp [hd, discOk, ih]
    | some m => simp [hd, discOk, ih]

theorem mem_discOutput {env : Env} {l : List String} {d : String}
    {m : StoredManifest} :
    (d, m) ∈ l.filterMap (fun x => (discOutcome env x).map (fun y => (x, y))) ↔
      d ∈ l ∧ discOutcome env d = some m := by
  constructor
  · intro h
    rcases List.mem_filterMap.1 h with ⟨a, ha, hmap⟩
    rcases Option.map_eq_some'.1 hmap with ⟨b, hb, heq⟩
    cases heq
    exact ⟨ha, hb⟩
  · rintro ⟨hd, hm⟩
    exact List.mem_filterMap.2 ⟨d, hd, by simp [hm]⟩

theorem discover_out (env : Env) (hnd : env.directories.Nodup) (st : KState) :
    (discover env st).1 =
      (sortStrings env.directories).filterMap
        (fun d => (discOutcome env d).map (fun m => (d, m))) := by
  rcases he : discoverLoop env (sortStrings env.directories) [] st with ⟨out, st1⟩
  have h := discoverLoop_out env (sortStrings_nodup hnd) [] st
    (fun d _ hc => by simp at hc)
  rw [he] at h
  simp only [List.nil_append] at h
  simp [discover, he, h]

theorem discover_frame (env : Env) (st : KState) :
    framePreserved st (discover env st).2 := by
  rcases he : discoverLoop env (sortStrings env.directories) [] st with ⟨out, st1⟩
  have h1 := discoverLoop_frame env (sortStrings env.directories) [] st
  rw [he] at h1
  have h2 := discoverRecord_frame out st1
  simp [discover, he]
  exact framePreserved_trans h1 h2

theorem discover_nodupkeys (env : Env) (st : KState)
    (h : (st.modules.map Prod.fst).Nodup) :
    ((discover env st).2.modules.map Prod.fst).Nodup := by
  rcases he : discoverLoop env (sortStrings env.directories) [] st with ⟨out, st1⟩
  have h1 := discoverLoop_nodupkeys env (sortStrings env.directories) [] st h
  rw [he] at h1
  simp [discover, he]
  exact discoverRecord_nodupkeys out st1 h1

theorem discover_lookup (env : Env) (hnd : env.directories.Nodup) {st : KState}
    (hempty : st.modules = []) (k : String) :
    (discover env st).2.modules.lookup k =
      if k ∈ env.directories then some (discInfo env k) else none := by
  rcases he : discoverLoop env (sortStrings env.directories) [] st with ⟨out, st1⟩
  have hout := discoverLoop_out env (sortStrings_nodup hnd) [] st
    (fun d _ hc => by simp at hc)
  rw [he] at hout
  simp only [List.nil_append] at hout
  have hkeys : out.map Prod.fst =
      (sortStrings env.directories).filter (fun d => discOk env d) := by
    rw [hout, keys_discOutput]
  have hkeysnd : (out.map Prod.fst).Nodup := by
    rw [hkeys]
    exact (sortStrings_nodup hnd).filter _
  simp only [discover, he]
  by_cases hk : k ∈ env.directories
  · by_cases hdk : discOk env k
    · have h1 : st1.modules.lookup k = none := by
        have h2 := discoverLoop_lookup_mem env (sortStrings_nodup hnd)
          (mem_sortStrings.2 hk) [] st (by simp [hempty])
        rw [he] at h2
        simpa [hdk] using h2
      rcases Option.isSome_iff_exists.1 hdk with ⟨m, hm⟩
      have hmemout : (k, m) ∈ out := by
        rw [hout]
        exact mem_discOutput.2 ⟨mem_sortStrings.2 hk, hm⟩
      rw [discoverRecord_lookup_mem hkeysnd hmemout h1]
      simp [discInfo, hm, hk]
    · have h1 : st1.modules.lookup k = some (discInfo env k) := by
        have h2 := discoverLoop_lookup_mem env (sortStrings_nodup hnd)
          (mem_sortStrings.2 hk) [] st (by simp [hempty])
        rw [he] at h2
        simpa [hdk] using h2
      have hnotin : k ∉ out.map Prod.fst := by
        rw [hkeys]
        simp [List.mem_filter, hdk]
      rw [discoverRecord_lookup_notmem hnotin, h1, if_pos hk]
  · have hnotsorted : k ∉ sortStrings env.directories := fun hc =>
      hk (mem_sortStrings.1 hc)
    have h1 : st1.modules.lookup k = none := by
      have h2 := discoverLoop_lookup_notmem env (sortStrings env.directories)
        [] st hnotsorted
      rw [he] at h2
      simpa [hempty] using h2
    have hnotin : k ∉ out.map Prod.fst := by
      rw [hkeys]
      intro hc
      exact hnotsorted (List.mem_of_mem_filter hc)
    rw [discoverRecord_lookup_notmem hnotin, h1, if_neg hk]

/-! Stage lemmas: validation. -/

theorem validateLoop_frame (env : Env) (entries : List (String × StoredManifest)) :
    ∀ (mans : List (String × StoredManifest)) (st : KState)
      (res : List (String × StoredManifest) × KState),
      validateLoop env entries mans st = some res → framePreserved st res.2 := by
  induction entries with
  | nil =>
    intro mans st res h
    simp only [validateLoop, Option.some.injEq] at h
    subst h
    exact framePreserved_rfl st
  | cons p rest ih =>
    obtain ⟨name, m⟩ := p
    intro mans st res h
    cases hvo : validationOutcome env name m.val with
    | none =>
        simp only [validateLoop, validate, hvo] at h
        exact Option.noConfusion h
    | some r =>
        cases r with
        | none =>
            simp only [validateLoop, validate, hvo] at h
            exact framePreserved_trans (framePreserved_setModuleInfo ..)
              (ih _ _ _ h)
        | some e =>
            simp only [validateLoop, validate, hvo] at h
            exact framePreserved_trans (framePreserved_setModuleInfo ..)
              (ih _ _ _ h)

theorem validateLoop_nothrow (env : Env)
    (entries : List (String × StoredManifest)) :
    ∀ (mans : List (String × StoredManifest)) (st : KState)
      (res : List (String × StoredManifest) × KState),
      validateLoop env entries mans st = some res →
      ∀ p ∈ entries, validationOutcome env p.1 p.2.val ≠ none := by
  induction entries with
  | nil =>
    intro mans st res _ p hp
    cases hp
  | cons q rest ih =>
    obtain ⟨name, m⟩ := q
    intro mans st res h p hp
    cases hvo : validationOutcome env name m.val with
    | none =>
        simp only [validateLoop, validate, hvo] at h
        exact Option.noConfusion h
    | some r =>
        rcases List.mem_cons.1 hp with he | hmem
        · subst he
          simp [hvo]
        · cases r with
          | none =>
              simp only [validateLoop, validate, hvo] at h
              exact ih _ _ _ h p hmem
          | some e =>
              simp only [validateLoop, validate, hvo] at h
              exact ih _ _ _ h p hmem

theorem validateLoop_nodupkeys (env : Env)
    (entries : List (String × StoredManifest)) :
    ∀ (mans : List (String × StoredManifest)) (st : KState)
      (res : List (String × StoredManifest) × KState),
      validateLoop env entries mans st = some res →
      (st.modules.map Prod.fst).Nodup →
      (res.2.modules.map Prod.fst).Nodup := by
  induction entries with
  | nil =>
    intro mans st res h hnd
    simp only [validateLoop, Option.some.injEq] at h
    subst h
    exact hnd
  | cons p rest ih =>
    obtain ⟨name, m⟩ := p
    intro mans st res h hnd
    cases hvo : validationOutcome env name m.val with
    | none =>
        simp only [validateLoop, validate, hvo] at h
        exact Option.noConfusion h
    | some r =>
        cases r with
        | none =>
            simp only [validateLoop, validate, hvo] at h
            exact ih _ _ _ h (nodup_keys_assocUpdate _ _ hnd)
        | some e =>
            simp only [validateLoop, validate, hvo] at h
            exact ih _ _ _ h (nodup_keys_assocUpdate _ _ hnd)

theorem validateLoop_mans (env : Env)
    {entries : List (String × StoredManifest)}
    (hnd : (entries.map Prod.fst).Nodup) :
    ∀ (mans : List (String × StoredManifest)) (st : KState)
      (res : List (String × StoredManifest) × KState),
      validateLoop env entries mans st = some res →
      (∀ p ∈ entries, p.1 ∉ mans.map Prod.fst) →
      res.1 = mans ++ entries.filter
        (fun p => decide (validationOutcome env p.1 p.2.val = some none)) := by
  induction entries with
  | nil =>
    intro mans st res h _
    simp only [validateLoop, Option.some.injEq] at h
    subst h
    simp
  | cons q rest ih =>
    obtain ⟨name, m⟩ := q
    intro mans st res h hdisj
    have hnd' : (rest.map Prod.fst).Nodup := (List.nodup_cons.1 hnd).2
    have hname : name ∉ rest.map Prod.fst := (List.nodup_cons.1 hnd).1
    cases hvo : validationOutcome env name m.val with
    | none =>
        simp only [validateLoop, validate, hvo] at h
        exact Option.noConfusion h
    | some r =>
        cases r with
        | none =>
            simp only [validateLoop, validate, hvo, if_true] at h
            rw [assocSet_eq_append m (hdisj (name, m) (List.mem_cons_self ..))]
              at h
            rw [ih hnd' _ _ _ h ?_]
            · simp [hvo, List.append_assoc]
            · intro p hp
              simp only [List.map_append, List.mem_append, not_or]
              refine ⟨hdisj p (List.mem_cons_of_mem _ hp), ?_⟩
              simp only [List.map_cons, List.map_nil, List.mem_cons,
                List.not_mem_nil, or_false]
              intro hc
              exact hname (hc ▸ List.mem_map.2 ⟨p, hp, rfl⟩)
        | some e =>
            simp only [validateLoop, validate, hvo] at h
            rw [ih hnd' _ _ _ h
              (fun p hp => hdisj p (List.mem_cons_of_mem _ hp))]
            simp [hvo]

theorem validateLoop_lookup_notmem (env : Env)
    (entries : List (String × StoredManifest)) :
    ∀ (mans : List (String × StoredManifest)) (st : KState)
      (res : List (String × StoredManifest) × KState),
      validateLoop env entries mans st = some res →
      ∀ {k : String}, k ∉ entries.map Prod.fst →
      res.2.modules.lookup k = st.modules.lookup k := by
  induction entries with
  | nil =>
    intro mans st res h k hk
    simp only [validateLoop, Option.some.injEq] at h
    subst h
    rfl
  | cons p rest ih =>
    obtain ⟨name, m⟩ := p
    intro mans st res h k hk
    simp only [List.map_cons, List.mem_cons, not_or] at hk
    cases hvo : validationOutcome env name m.val with
    | none =>
        simp only [validateLoop, validate, hvo] at h
        exact Option.noConfusion h
    | some r =>
        cases r with
        | none =>
            simp only [validateLoop, validate, hvo] at h
            rw [ih _ _ _ h (by simp [hk.2])]
            simp [setModuleInfo, lookup_assocUpdate_ne _ _ hk.1]
        | some e =>
            simp only [validateLoop, validate, hvo] at h
            rw [ih _ _ _ h (by simp [hk.2])]
            simp [setModuleInfo, lookup_assocUpdate_ne _ _ hk.1]

theorem validateLoop_lookup_mem (env : Env)
    {entries : List (String × StoredManifest)}
    (hnd : (entries.map Prod.fst).Nodup) {k : String} {m : StoredManifest}
    (hmem : (k, m) ∈ entries) :
    ∀ (mans : List (String × StoredManifest)) (st : KState)
      (res : List (String × StoredManifest) × KState),
      validateLoop env entries mans st = some res →
      res.2.modules.lookup k =
        some (mergeInfo ((st.modules.lookup k).getD {}) (valUpd env k m.val)) := by
  induction entries with
  | nil => cases hmem
  | cons q rest ih =>
    obtain ⟨name, m'⟩ := q
    intro mans st res h
    simp only [List.map_cons, List.nodup_cons] at hnd
    rcases List.mem_cons.1 hmem with he | hmem'
    · cases he
      cases hvo : validationOutcome env k m.val with
      | none =>
          simp only [validateLoop, validate, hvo] at h
          exact Option.noConfusion h
      | some r =>
          cases r with
          | none =>
              simp only [validateLoop, validate, hvo] at h
              rw [validateLoop_lookup_notmem env rest _ _ _ h hnd.1]
              simp [setModuleInfo, lookup_assocUpdate_self, valUpd, hvo]
          | some e =>
              simp only [validateLoop, validate, hvo] at h
              rw [validateLoop_lookup_notmem env rest _ _ _ h hnd.1]
              simp [setModuleInfo, lookup_assocUpdate_self, valUpd, hvo]
    · have hk : k ≠ name := by
        intro he
        subst he
        exact hnd.1 (List.mem_map.2 ⟨(k, m), hmem', rfl⟩)
      cases hvo : validationOutcome env name m'.val with
      | none =>
          simp only [validateLoop, validate, hvo] at h
          exact Option.noConfusion h
      | some r =>
          cases r with
          | none =>
              simp only [validateLoop, validate, hvo] at h
              rw [ih hnd.2 hmem' _ _ _ h]
              simp [setModuleInfo, lookup_assocUpdate_ne _ _ hk]
          | some e =>
              simp only [validateLoop, validate, hvo] at h
              rw [ih hnd.2 hmem' _ _ _ h]
              simp [setModuleInfo, lookup_assocUpdate_ne _ _ hk]

/-! Stage lemmas: loading. -/

theorem loadLoop_frame (env : Env) (entries : List (String × StoredManifest)) :
    ∀ (inits : List (String × InitBehavior)) (st : KState),
      framePreserved st (loadLoop env entries inits st).2 := by
  induction entries with
  | nil => intro inits st; exact framePreserved_rfl st
  | cons p rest ih =>
    obtain ⟨name, m⟩ := p
    intro inits st
    cases hie : env.importEntry (jsFieldStr m.val "name") (jsFieldStr m.val "entry") with
    | importError =>
        simp only [loadLoop, load, hie]
        exact framePreserved_trans (framePreserved_setModuleInfo ..) (ih ..)
    | ok ie =>
        cases ie with
        | notFunction =>
            simp only [loadLoop, load, hie]
            exact framePreserved_trans (framePreserved_setModuleInfo ..) (ih ..)
        | fn b =>
            simp only [loadLoop, load, hie]
            exact framePreserved_trans (framePreserved_setModuleInfo ..) (ih ..)

theorem loadLoop_nodupkeys (env : Env) (entries : List (String × StoredManifest)) :
    ∀ (inits : List (String × InitBehavior)) (st : KState),
      (st.modules.map Prod.fst).Nodup →
      ((loadLoop env entries inits st).2.modules.map Prod.fst).Nodup := by
  induction entries with
  | nil => intro inits st h; exact h
  | cons p rest ih =>
    obtain ⟨name, m⟩ := p
    intro inits st h
    cases hie : env.importEntry (jsFieldStr m.val "name") (jsFieldStr m.val "entry") with
    | importError =>
        simp only [loadLoop, load, hie]
        exact ih _ _ (nodup_keys_assocUpdate _ _ h)
    | ok ie =>
        cases ie with
        | notFunction =>
            simp only [loadLoop, load, hie]
            exact ih _ _ (nodup_keys_assocUpdate _ _ h)
        | fn b =>
            simp only [loadLoop, load, hie]
            exact ih _ _ (nodup_keys_assocUpdate _ _ h)

theorem loadLoop_inits (env : Env) {entries : List (String × StoredManifest)}
    (hnd : (entries.map Prod.fst).Nodup) :
    ∀ (inits : List (String × InitBehavior)) (st : KState),
      (∀ p ∈ entries, p.1 ∉ inits.map Prod.fst) →
      (loadLoop env entries inits st).1 =
        inits ++ entries.filterMap
          (fun p => (importRes env p.2).map (fun b => (p.1, b))) := by
  induction entries with
  | nil =>
    intro inits st _
    simp [loadLoop]
  | cons q rest ih =>
    obtain ⟨name, m⟩ := q
    intro inits st hdisj
    have hnd' : (rest.map Prod.fst).Nodup := (List.nodup_cons.1 hnd).2
    have hname : name ∉ rest.map Prod.fst := (List.nodup_cons.1 hnd).1
    cases hie : env.importEntry (jsFieldStr m.val "name") (jsFieldStr m.val "entry") with
    | importError =>
        simp only [loadLoop, load, hie]
        rw [ih hnd' _ _ (fun p hp => hdisj p (List.mem_cons_of_mem _ hp))]
        simp [importRes, hie]
    | ok ie =>
        cases ie with
        | notFunction =>
            simp only [loadLoop, load, hie]
            rw [ih hnd' _ _ (fun p hp => hdisj p (List.mem_cons_of_mem _ hp))]
            simp [importRes, hie]
        | fn b =>
            simp only [loadLoop, load, hie]
            rw [assocSet_eq_append b (hdisj (name, m) (List.mem_cons_self ..))]
            rw [ih hnd' _ _ ?_]
            · simp [importRes, hie, List.append_assoc]
            · intro p hp
              simp only [List.map_append, List.mem_append, not_or]
              refine ⟨hdisj p (List.mem_cons_of_mem _ hp), ?_⟩
              simp only [List.map_cons, List.map_nil, List.mem_cons,
                List.not_mem_nil, or_false]
              intro hc
              exact hname (hc ▸ List.mem_map.2 ⟨p, hp, rfl⟩)

theorem loadLoop_lookup_notmem (env : Env)
    (entries : List (String × StoredManifest))
    (hkey : ∀ p ∈ entries, jsFieldStr p.2.val "name" = p.1) :
    ∀ (inits : List (String × InitBehavior)) (st : KState) {k : String},
      k ∉ entries.map Prod.fst →
      (loadLoop env entries inits st).2.modules.lookup k =
        st.modules.lookup k := by
  induction entries with
  | nil =>
    intro inits st k _
    rfl
  | cons p rest ih =>
    obtain ⟨name, m⟩ := p
    intro inits st k hk
    simp only [List.map_cons, List.mem_cons, not_or] at hk
    have hkey0 : jsFieldStr m.val "name" = name :=
      hkey (name, m) (List.mem_cons_self ..)
    have hkey' : ∀ p ∈ rest, jsFieldStr p.2.val "name" = p.1 :=
      fun p hp => hkey p (List.mem_cons_of_mem _ hp)
    cases hie : env.importEntry (jsFieldStr m.val "name") (jsFieldStr m.val "entry") with
    | importError =>
        simp only [loadLoop, load, hie]
        rw [ih hkey' _ _ (by simp [hk.2])]
        simp [setModuleInfo, hkey0, lookup_assocUpdate_ne _ _ hk.1]
    | ok ie =>
        cases ie with
        | notFunction =>
            simp only [loadLoop, load, hie]
            rw [ih hkey' _ _ (by simp [hk.2])]
            simp [setModuleInfo, hkey0, lookup_assocUpdate_ne _ _ hk.1]
        | fn b =>
            simp only [loadLoop, load, hie]
            rw [ih hkey' _ _ (by simp [hk.2])]
            simp [setModuleInfo, hkey0, lookup_assocUpdate_ne _ _ hk.1]

theorem loadLoop_lookup_mem (env : Env)
    {entries : List (String × StoredManifest)}
    (hnd : (entries.map Prod.fst).Nodup)
    (hkey : ∀ p ∈ entries, jsFieldStr p.2.val "name" = p.1)
    {k : String} {m : StoredManifest} (hmem : (k, m) ∈ entries) :
    ∀ (inits : List (String × InitBehavior)) (st : KState),
      (loadLoop env entries inits st).2.modules.lookup k =
        some (mergeInfo ((st.modules.lookup k).getD {}) (loadUpd env m)) := by
  induction entries with
  | nil => cases hmem
  | cons q rest ih =>
    obtain ⟨name, m'⟩ := q
    intro inits st
    simp only [List.map_cons, List.nodup_cons] at hnd
    have hkey' : ∀ p ∈ rest, jsFieldStr p.2.val "name" = p.1 :=
      fun p hp => hkey p (List.mem_cons_of_mem _ hp)
    rcases List.mem_cons.1 hmem with he | hmem'
    · cases he
      have hkey0 : jsFieldStr m.val "name" = k :=
        hkey (k, m) (List.mem_cons_self ..)
      cases hie : env.importEntry (jsFieldStr m.val "name") (jsFieldStr m.val "entry") with
      | importError =>
          simp only [loadLoop, load, hie]
          rw [loadLoop_lookup_notmem env rest hkey' _ _ hnd.1]
          rw [hkey0] at hie
          simp [setModuleInfo, hkey0, lookup_assocUpdate_self, loadUpd, hie]
      | ok ie =>
          cases ie with
          | notFunction =>
              simp only [loadLoop, load, hie]
              rw [loadLoop_lookup_notmem env rest hkey' _ _ hnd.1]
              rw [hkey0] at hie
              simp [setModuleInfo, hkey0, lookup_assocUpdate_self, loadUpd, hie]
          | fn b =>
              simp only [loadLoop, load, hie]
              rw [loadLoop_lookup_notmem env rest hkey' _ _ hnd.1]
              rw [hkey0] at hie
              simp [setModuleInfo, hkey0, lookup_assocUpdate_self, loadUpd, hie]
    · have hk : k ≠ name := by
        intro he
        subst he
        exact hnd.1 (List.mem_map.2 ⟨(k, m), hmem', rfl⟩)
      have hkey0 : jsFieldStr m'.val "name" = name :=
        hkey (name, m') (List.mem_cons_self ..)
      cases hie : env.importEntry (jsFieldStr m'.val "name") (jsFieldStr m'.val "entry") with
      | importError =>
          simp only [loadLoop, load, hie]
          rw [ih hnd.2 hkey' hmem' _ _]
          simp [setModuleInfo, hkey0, lookup_assocUpdate_ne _ _ hk]
      | ok ie =>
          cases ie with
          | notFunction =>
              simp only [loadLoop, load, hie]
              rw [ih hnd.2 hkey' hmem' _ _]
              simp [setModuleInfo, hkey0, lookup_assocUpdate_ne _ _ hk]
          | fn b =>
              simp only [loadLoop, load, hie]
              rw [ih hnd.2 hkey' hmem' _ _]
              simp [setModuleInfo, hkey0, lookup_assocUpdate_ne _ _ hk]

/-! Stage lemmas: initialization. -/

theorem initLoop_misc (env : Env) (entries : List (String × InitBehavior)) :
    ∀ st : KState,
      (initLoop env entries st).setupTime = st.setupTime ∧
      (initLoop env entries st).isSetupComplete = st.isSetupComplete ∧
      (initLoop env entries st).isSetupInProgress = st.isSetupInProgress := by
  induction entries with
  | nil => intro st; exact ⟨rfl, rfl, rfl⟩
  | cons p rest ih =>
    obtain ⟨name, b⟩ := p
    intro st
    cases b with
    | completes =>
        simp only [initLoop]
        rcases ih (initModule env name .completes st) with ⟨h1, h2, h3⟩
        refine ⟨h1.trans ?_, h2.trans ?_, h3.trans ?_⟩ <;>
          simp [initModule, tick, setModuleInfo]
    | throws =>
        simp only [initLoop]
        rcases ih (initModule env name .throws st) with ⟨h1, h2, h3⟩
        refine ⟨h1.trans ?_, h2.trans ?_, h3.trans ?_⟩ <;>
          simp [initModule, tick, setModuleInfo]

theorem initLoop_nodupkeys (env : Env) (entries : List (String × InitBehavior)) :
    ∀ st : KState, (st.modules.map Prod.fst).Nodup →
      ((initLoop env entries st).modules.map Prod.fst).Nodup := by
  induction entries with
  | nil => intro st h; exact h
  | cons p rest ih =>
    obtain ⟨name, b⟩ := p
    intro st h
    cases b with
    | completes =>
        simp only [initLoop]
        refine ih _ ?_
        simp only [initModule, tick, setModuleInfo]
        exact nodup_keys_assocUpdate _ _ h
    | throws =>
        simp only [initLoop]
        refine ih _ ?_
        simp only [initModule, tick, setModuleInfo]
        exact nodup_keys_assocUpdate _ _ h

theorem initLoop_initOrder (env : Env) (entries : List (String × InitBehavior)) :
    ∀ st : KState,
      (initLoop env entries st).initOrder =
        st.initOrder ++
          (entries.filter (fun p => decide (p.2 = InitBehavior.completes))).map
            Prod.fst := by
  induction entries with
  | nil => intro st; simp [initLoop]
  | cons p rest ih =>
    obtain ⟨name, b⟩ := p
    intro st
    cases b with
    | completes =>
        simp only [initLoop]
        rw [ih _]
        simp [initModule, tick, setModuleInfo, List.append_assoc]
    | throws =>
        simp only [initLoop]
        rw [ih _]
        simp [initModule, tick, setModuleInfo]

theorem initLoop_lookup_notmem (env : Env)
    (entries : List (String × InitBehavior)) :
    ∀ (st : KState) {k : String}, k ∉ entries.map Prod.fst →
      (initLoop env entries st).modules.lookup k = st.modules.lookup k := by
  induction entries with
  | nil => intro st k _; rfl
  | cons p rest ih =>
    obtain ⟨name, b⟩ := p
    intro st k hk
    simp only [List.map_cons, List.mem_cons, not_or] at hk
    cases b with
    | completes =>
        simp only [initLoop]
        rw [ih _ (by simp [hk.2])]
        simp [initModule, tick, setModuleInfo, lookup_assocUpdate_ne _ _ hk.1]
    | throws =>
        simp only [initLoop]
        rw [ih _ (by simp [hk.2])]
        simp [initModule, tick, setModuleInfo, lookup_assocUpdate_ne _ _ hk.1]

theorem initLoop_lookup_mem (env : Env) {entries : List (String × InitBehavior)}
    (hnd : (entries.map Prod.fst).Nodup) {k : String} {b : InitBehavior}
    (hmem : (k, b) ∈ entries) :
    ∀ st : KState, ∃ t : Option Int,
      (initLoop env entries st).modules.lookup k =
        some (mergeInfo ((st.modules.lookup k).getD {}) (initUpd k b t)) := by
  induction entries with
  | nil => cases hmem
  | cons q rest ih =>
    obtain ⟨name, b'⟩ := q
    intro st
    simp only [List.map_cons, List.nodup_cons] at hnd
    rcases List.mem_cons.1 hmem with he | hmem'
    · cases he
      cases b with
      | completes =>
          refine ⟨some (env.timeAt (st.clock + 1) - env.timeAt st.clock), ?_⟩
          simp only [initLoop]
          rw [initLoop_lookup_notmem env rest _ hnd.1]
          simp [initModule, tick, setModuleInfo, lookup_assocUpdate_self,
            initUpd]
      | throws =>
          refine ⟨none, ?_⟩
          simp only [initLoop]
          rw [initLoop_lookup_notmem env rest _ hnd.1]
          simp [initModule, tick, setModuleInfo, lookup_assocUpdate_self,
            initUpd]
    · have hk : k ≠ name := by
        intro he
        subst he
        exact hnd.1 (List.mem_map.2 ⟨(k, b), hmem', rfl⟩)
      simp only [initLoop]
      rcases ih hnd.2 hmem' (initModule env name b' st) with ⟨t, ht⟩
      refine ⟨t, ?_⟩
      rw [ht]
      cases b' <;>
        simp [initModule, tick, setModuleInfo, lookup_assocUpdate_ne _ _ hk]

/-! Facts about a passing validation, and the composed stage chains. -/

theorem truthyStr_eq_some {o : Option JVal} {s : String}
    (h : truthyStr o = some s) : o = some (.jstr s) := by
  cases o with
  | none => cases h
  | some v =>
    cases v with
    | jstr t =>
        by_cases ht : t.data = []
        · simp [truthyStr, ht] at h
        · simp only [truthyStr, if_neg ht, Option.some.injEq] at h
          rw [h]
    | jnull => cases h
    | jbool b => cases h
    | jnum n => cases h
    | jarr xs => cases h
    | jobj fs => cases h

theorem validationOutcome_pass_name (env : Env) (d : String) (v : JVal)
    (h : validationOutcome env d v = some none) : jsFieldStr v "name" = d := by
  cases v with
  | jobj fs =>
      simp only [validationOutcome, jsDestructNameEntry, Option.some.injEq] at h
      cases hn : truthyStr (fs.lookup "name") with
      | none => rw [hn] at h; cases h
      | some name =>
          rw [hn] at h
          cases he : truthyStr (fs.lookup "entry") with
          | none => rw [he] at h; cases h
          | some entry =>
              rw [he] at h
              by_cases hne : name = d
              · have := truthyStr_eq_some hn
                simp [jsFieldStr, this, hne]
              · simp [hne] at h
  | jnull => cases h
  | jbool b => simp [validationOutcome, jsDestructNameEntry, truthyStr] at h
  | jnum n => simp [validationOutcome, jsDestructNameEntry, truthyStr] at h
  | jstr t => simp [validationOutcome, jsDestructNameEntry, truthyStr] at h
  | jarr xs => simp [validationOutcome, jsDestructNameEntry, truthyStr] at h

theorem keys_initsOutput (env : Env) (l : List (String × StoredManifest)) :
    (l.filterMap (fun p => (importRes env p.2).map (fun b => (p.1, b)))).map
        Prod.fst =
      (l.filter (fun p => (importRes env p.2).isSome)).map Prod.fst := by
  induction l with
  | nil => rfl
  | cons p rest ih =>
    cases hir : importRes env p.2 with
    | none => simp [hir, ih]
    | some b => simp [hir, ih]

theorem mem_initsOutput {env : Env} {l : List (String × StoredManifest)}
    {d : String} {b : InitBehavior} :
    (d, b) ∈ l.filterMap (fun p => (importRes env p.2).map (fun c => (p.1, c))) ↔
      ∃ m, (d, m) ∈ l ∧ importRes env m = some b := by
  constructor
  · intro h
    rcases List.mem_filterMap.1 h with ⟨p, hp, hmap⟩
    rcases Option.map_eq_some'.1 hmap with ⟨c, hc, heq⟩
    obtain ⟨p1, p2⟩ := p
    injection heq with h1 h2
    subst h1
    subst h2
    exact ⟨p2, hp, hc⟩
  · rintro ⟨m, hm, hr⟩
    exact List.mem_filterMap.2 ⟨(d, m), hm, by simp [hr]⟩

theorem initsChain (env : Env) (l : List String) :
    ((((l.filterMap (fun d => (discOutcome env d).map (fun m => (d, m)))).filter
        (fun p => decide (validationOutcome env p.1 p.2.val = some none))).filterMap
        (fun p => (importRes env p.2).map (fun b => (p.1, b)))).filter
        (fun p => decide (p.2 = InitBehavior.completes))).map Prod.fst
      = l.filter (fun d => initOk env d) := by
  induction l with
  | nil => rfl
  | cons d rest ih =>
    cases hm : discOutcome env d with
    | none =>
        have hok : initOk env d = false := by
          simp [initOk, loadOk, valOk, hm]
        simp [hm, hok, ih]
    | some m =>
        by_cases hvo : validationOutcome env d m.val = some none
        · cases hir : importRes env m with
          | none =>
              have hok : initOk env d = false := by
                simp [initOk, loadOk, loadRes, hm, hir]
              simp [hm, hvo, hir, hok, ih]
          | some b =>
              cases b with
              | completes =>
                  have hok : initOk env d = true := by
                    simp [initOk, loadOk, valOk, loadRes, hm, hir, hvo]
                  simp [hm, hvo, hir, hok, ih]
              | throws =>
                  have hok : initOk env d = false := by
                    simp [initOk, loadRes, hm, hir]
                  simp [hm, hvo, hir, hok, ih]
        · have hok : initOk env d = false := by
            simp [initOk, loadOk, valOk, hm, hvo]
          simp [hm, hvo, hok, ih]

/-! Unfolding the orchestrator when the idempotency gate is open. -/

theorem setup_unfold (env : Env) (st : KState)
    (h1 : st.isSetupComplete = false) (h2 : st.isSetupInProgress = false) :
    setup env st =
      match validateLoop env
          (discover env (tick env { st with isSetupInProgress := true }).2).1 []
          (discover env (tick env { st with isSetupInProgress := true }).2).2 with
      | none => none
      | some (mans, st4) =>
          some { (tick env (initLoop env (loadLoop env mans [] st4).1
                    (loadLoop env mans [] st4).2)).2 with
                 setupTime :=
                   (tick env (initLoop env (loadLoop env mans [] st4).1
                      (loadLoop env mans [] st4).2)).1 -
                   (tick env { st with isSetupInProgress := true }).1,
                 isSetupInProgress := false, isSetupComplete := true } := by
  unfold setup
  rw [h1, h2]
  rfl

theorem importRes_eq_some_iff {env : Env} {m : StoredManifest}
    {b : InitBehavior} :
    importRes env m = some b ↔
      env.importEntry (jsFieldStr m.val "name") (jsFieldStr m.val "entry") =
        .ok (.fn b) := by
  cases hie : env.importEntry (jsFieldStr m.val "name") (jsFieldStr m.val "entry") with
  | importError => simp [importRes, hie]
  | ok ie => cases ie <;> simp [importRes, hie]

/-! The master characterization of one completed fresh setup run. -/

theorem setup_master (env : Env) (hnd : env.directories.Nodup) {st' : KState}
    (h : setup env initK = some st') :
    (st'.modules.map Prod.fst).Nodup ∧
    (∀ k, k ∉ env.directories → st'.modules.lookup k = none) ∧
    (∀ d ∈ env.directories, ∃ info : ModuleInfo,
        st'.modules.lookup d = some info ∧
        info.name = some d ∧
        info.stage = some (lastStage env d) ∧
        info.success = some (stageReached env d (lastStage env d)) ∧
        info.manifest = discOutcome env d) ∧
    st'.initOrder =
      (sortStrings env.directories).filter (fun d => initOk env d) ∧
    st'.isSetupComplete = true ∧ st'.isSetupInProgress = false := by
  rw [setup_unfold env initK rfl rfl] at h
  rcases hdisc : discover env (tick env { initK with isSetupInProgress := true }).2
    with ⟨out, st3⟩
  rw [hdisc] at h
  cases hv : validateLoop env out [] st3 with
  | none =>
      rw [hv] at h
      exact Option.noConfusion h
  | some r =>
      obtain ⟨mans, st4⟩ := r
      rw [hv] at h
      simp only [Option.some.injEq] at h
      rcases hload : loadLoop env mans [] st4 with ⟨inits, st5⟩
      rw [hload] at h
      -- component equations for the final state
      have hmod : st'.modules = (initLoop env inits st5).modules := by
        rw [← h]
        rfl
      have hord : st'.initOrder = (initLoop env inits st5).initOrder := by
        rw [← h]
        rfl
      have hcomp : st'.isSetupComplete = true := by rw [← h]
      have hprog : st'.isSetupInProgress = false := by rw [← h]
      -- the discovery output map
      have hsortnd := sortStrings_nodup hnd
      have hout : out = (sortStrings env.directories).filterMap
          (fun d => (discOutcome env d).map (fun m => (d, m))) := by
        have h0 := discover_out env hnd (tick env { initK with isSetupInProgress := true }).2
        rw [hdisc] at h0
        exact h0
      have houtkeys : out.map Prod.fst =
          (sortStrings env.directories).filter (fun d => discOk env d) := by
        rw [hout, keys_discOutput]
      have houtkeysnd : (out.map Prod.fst).Nodup := by
        rw [houtkeys]
        exact hsortnd.filter _
      have hst3lookup : ∀ k, st3.modules.lookup k =
          if k ∈ env.directories then some (discInfo env k) else none := by
        intro k
        have h0 := discover_lookup env hnd (rfl :
          ((tick env { initK with isSetupInProgress := true }).2).modules = []) k
        rw [hdisc] at h0
        exact h0
      have hst3nd : (st3.modules.map Prod.fst).Nodup := by
        have h0 := discover_nodupkeys env
          (tick env { initK with isSetupInProgress := true }).2
          (by simp [tick, initK])
        rw [hdisc] at h0
        exact h0
      -- validation results
      have hnothrow := validateLoop_nothrow env out [] st3 (mans, st4) hv
      have hmans : mans = out.filter
          (fun p => decide (validationOutcome env p.1 p.2.val = some none)) := by
        have h0 := validateLoop_mans env houtkeysnd [] st3 (mans, st4) hv
          (by simp)
        simpa using h0
      have hmanskeysnd : (mans.map Prod.fst).Nodup := by
        rw [hmans]
        exact ((List.filter_sublist _).map Prod.fst).nodup houtkeysnd
      have hmanskey : ∀ p ∈ mans, jsFieldStr p.2.val "name" = p.1 := by
        intro p hp
        rw [hmans] at hp
        exact validationOutcome_pass_name env p.1 p.2.val
          (of_decide_eq_true (List.mem_filter.1 hp).2)
      -- loading results
      have hinits : inits = mans.filterMap
          (fun p => (importRes env p.2).map (fun b => (p.1, b))) := by
        have h0 := loadLoop_inits env hmanskeysnd [] st4 (by simp)
        rw [hload] at h0
        exact h0
      have hinitskeys : inits.map Prod.fst =
          (mans.filter (fun p => (importRes env p.2).isSome)).map Prod.fst := by
        rw [hinits, keys_initsOutput]
      have hinitskeysnd : (inits.map Prod.fst).Nodup := by
        rw [hinitskeys]
        exact ((List.filter_sublist _).map Prod.fst).nodup hmanskeysnd
      -- key subset facts
      have houtsub : ∀ k, k ∉ env.directories → k ∉ out.map Prod.fst := by
        intro k hk
        rw [houtkeys]
        intro hc
        exact hk (mem_sortStrings.1 (List.mem_of_mem_filter hc))
      have hmanssub : ∀ k, k ∉ out.map Prod.fst → k ∉ mans.map Prod.fst := by
        intro k hk
        rw [hmans]
        intro hc
        exact hk (((List.filter_sublist _).map Prod.fst).subset hc)
      have hinitssub : ∀ k, k ∉ mans.map Prod.fst → k ∉ inits.map Prod.fst := by
        intro k hk
        rw [hinitskeys]
        intro hc
        exact hk (((List.filter_sublist _).map Prod.fst).subset hc)
      -- nodup keys through the stages
      have hst4nd : (st4.modules.map Prod.fst).Nodup :=
        validateLoop_nodupkeys env out [] st3 (mans, st4) hv hst3nd
      have hst5nd : (st5.modules.map Prod.fst).Nodup := by
        have h0 := loadLoop_nodupkeys env mans [] st4 hst4nd
        rw [hload] at h0
        exact h0
      refine ⟨?_, ?_, ?_, ?_, hcomp, hprog⟩
      · rw [hmod]
        exact initLoop_nodupkeys env inits st5 hst5nd
      · intro k hk
        rw [hmod]
        rw [initLoop_lookup_notmem env inits st5
          (hinitssub k (hmanssub k (houtsub k hk)))]
        have h5 := loadLoop_lookup_notmem env mans hmanskey [] st4
          (hmanssub k (houtsub k hk))
        rw [hload] at h5
        rw [h5]
        rw [validateLoop_lookup_notmem env out [] st3 (mans, st4) hv
          (houtsub k hk)]
        rw [hst3lookup k, if_neg hk]
      · intro d hd
        have hd3 : st3.modules.lookup d = some (discInfo env d) := by
          rw [hst3lookup d, if_pos hd]
        by_cases hdk : discOk env d
        · rcases Option.isSome_iff_exists.1 hdk with ⟨m, hm⟩
          have hdout : (d, m) ∈ out := by
            rw [hout]
            exact mem_discOutput.2 ⟨mem_sortStrings.2 hd, hm⟩
          have hdiscinfo : discInfo env d =
              { name := some d, success := some true, stage := some .discovery,
                manifest := some m } := by
            simp [discInfo, hm]
          have hd4 : st4.modules.lookup d =
              some (mergeInfo (discInfo env d) (valUpd env d m.val)) := by
            have h0 := validateLoop_lookup_mem env houtkeysnd hdout [] st3
              (mans, st4) hv
            rw [hd3] at h0
            simpa using h0
          by_cases hvk : validationOutcome env d m.val = some none
          · -- validation passed
            have hvalok : valOk env d = true := by
              simp [valOk, hm, hvk]
            have hdm : (d, m) ∈ mans := by
              rw [hmans]
              exact List.mem_filter.2 ⟨hdout, by simp [hvk]⟩
            have hd5 : st5.modules.lookup d =
                some (mergeInfo (mergeInfo (discInfo env d) (valUpd env d m.val))
                  (loadUpd env m)) := by
              have h0 := loadLoop_lookup_mem env hmanskeysnd hmanskey hdm [] st4
              rw [hload] at h0
              rw [hd4] at h0
              simpa using h0
            cases hlr : importRes env m with
            | some b =>
                have hloadok : loadOk env d = true := by
                  simp [loadOk, hvalok, loadRes, hm, hlr]
                have hie := importRes_eq_some_iff.1 hlr
                have hdi : (d, b) ∈ inits := by
                  rw [hinits]
                  exact mem_initsOutput.2 ⟨m, hdm, hlr⟩
                obtain ⟨t, ht⟩ := initLoop_lookup_mem env hinitskeysnd hdi st5
                rw [hd5] at ht
                refine ⟨_, by rw [hmod]; exact ht, ?_, ?_, ?_, ?_⟩
                · cases b <;>
                    simp [mergeInfo, initUpd, loadUpd, hie, valUpd, hvk, hdiscinfo]
                · have hls : lastStage env d = .initialization := by
                    simp [lastStage, hdk, hvalok, hloadok]
                  rw [hls]
                  cases b <;>
                    simp [mergeInfo, initUpd, loadUpd, hie, valUpd, hvk, hdiscinfo]
                · have hls : lastStage env d = .initialization := by
                    simp [lastStage, hdk, hvalok, hloadok]
                  rw [hls]
                  have hini : stageReached env d .initialization = initOk env d := rfl
                  rw [hini]
                  cases b with
                  | completes =>
                      have : initOk env d = true := by
                        simp [initOk, hloadok, loadRes, hm, hlr]
                      rw [this]
                      simp [mergeInfo, initUpd, loadUpd, hie, valUpd, hvk, hdiscinfo]
                  | throws =>
                      have : initOk env d = false := by
                        simp [initOk, loadRes, hm, hlr]
                      rw [this]
                      simp [mergeInfo, initUpd, loadUpd, hie, valUpd, hvk, hdiscinfo]
                · rw [hm]
                  cases b <;>
                    simp [mergeInfo, initUpd, loadUpd, hie, valUpd, hvk, hdiscinfo]
            | none =>
                have hloadok : loadOk env d = false := by
                  simp [loadOk, loadRes, hm, hlr]
                have hdnotininits : d ∉ inits.map Prod.fst := by
                  rw [hinitskeys]
                  intro hc
                  rcases List.mem_map.1 hc with ⟨p, hp, hfst⟩
                  have hpm := List.mem_filter.1 hp
                  have h1 : mans.lookup d = some m :=
                    lookup_eq_some_of_mem hmanskeysnd hdm
                  have h2 : mans.lookup p.1 = some p.2 :=
                    lookup_eq_some_of_mem hmanskeysnd hpm.1
                  rw [hfst, h1] at h2
                  have h3 : p.2 = m := by
                    injection h2 with h4
                    exact h4.symm
                  rw [h3] at hpm
                  rw [hlr] at hpm
                  exact Option.noConfusion (Option.isSome_iff_exists.1 hpm.2).choose_spec
                have ht : (initLoop env inits st5).modules.lookup d =
                    st5.modules.lookup d :=
                  initLoop_lookup_notmem env inits st5 hdnotininits
                rw [hd5] at ht
                cases hie : env.importEntry (jsFieldStr m.val "name")
                    (jsFieldStr m.val "entry") with
                | ok ie =>
                    cases ie with
                    | fn b =>
                        rw [importRes_eq_some_iff.2 hie] at hlr
                        exact Option.noConfusion hlr
                    | notFunction =>
                        refine ⟨_, by rw [hmod]; exact ht, ?_, ?_, ?_, ?_⟩
                        · simp [mergeInfo, loadUpd, hie, valUpd, hvk, hdiscinfo]
                        · have hls : lastStage env d = .loading := by
                            simp [lastStage, hdk, hvalok, hloadok]
                          rw [hls]
                          simp [mergeInfo, loadUpd, hie, valUpd, hvk, hdiscinfo]
                        · have hls : lastStage env d = .loading := by
                            simp [lastStage, hdk, hvalok, hloadok]
                          rw [hls]
                          have : stageReached env d .loading = loadOk env d := rfl
                          rw [this, hloadok]
                          simp [mergeInfo, loadUpd, hie, valUpd, hvk, hdiscinfo]
                        · rw [hm]
                          simp [mergeInfo, loadUpd, hie, valUpd, hvk, hdiscinfo]
                | importError =>
                    refine ⟨_, by rw [hmod]; exact ht, ?_, ?_, ?_, ?_⟩
                    · simp [mergeInfo, loadUpd, hie, valUpd, hvk, hdiscinfo]
                    · have hls : lastStage env d = .loading := by
                        simp [lastStage, hdk, hvalok, hloadok]
                      rw [hls]
                      simp [mergeInfo, loadUpd, hie, valUpd, hvk, hdiscinfo]
                    · have hls : lastStage env d = .loading := by
                        simp [lastStage, hdk, hvalok, hloadok]
                      rw [hls]
                      have : stageReached env d .loading = loadOk env d := rfl
                      rw [this, hloadok]
                      simp [mergeInfo, loadUpd, hie, valUpd, hvk, hdiscinfo]
                    · rw [hm]
                      simp [mergeInfo, loadUpd, hie, valUpd, hvk, hdiscinfo]
          · -- validation failed
            have hvalok : valOk env d = false := by
              simp [valOk, hm, hvk]
            have hdnotinmans : d ∉ mans.map Prod.fst := by
              rw [hmans]
              intro hc
              rcases List.mem_map.1 hc with ⟨p, hp, hfst⟩
              have hpm := List.mem_filter.1 hp
              have h1 : out.lookup d = some m :=
                lookup_eq_some_of_mem houtkeysnd hdout
              have h2 : out.lookup p.1 = some p.2 :=
                lookup_eq_some_of_mem houtkeysnd hpm.1
              rw [hfst, h1] at h2
              have h3 : p.2 = m := by
                injection h2 with h4
                exact h4.symm
              rw [h3] at hpm
              exact hvk (of_decide_eq_true (hfst ▸ hpm.2))
            rcases hve : validationOutcome env d m.val with _ | r
            · exact absurd hve (hnothrow (d, m) hdout)
            · rcases r with _ | e
              · exact absurd hve hvk
              · have ht : (initLoop env inits st5).modules.lookup d =
                    st4.modules.lookup d := by
                  rw [initLoop_lookup_notmem env inits st5
                    (hinitssub d hdnotinmans)]
                  have h5 := loadLoop_lookup_notmem env mans hmanskey [] st4
                    hdnotinmans
                  rw [hload] at h5
                  exact h5
                rw [hd4] at ht
                refine ⟨_, by rw [hmod]; exact ht, ?_, ?_, ?_, ?_⟩
                · simp [mergeInfo, valUpd, hve, hdiscinfo]
                · have hls : lastStage env d = .validation := by
                    simp [lastStage, hdk, hvalok]
                  rw [hls]
                  simp [mergeInfo, valUpd, hve, hdiscinfo]
                · have hls : lastStage env d = .validation := by
                    simp [lastStage, hdk, hvalok]
                  rw [hls]
                  have : stageReached env d .validation = valOk env d := rfl
                  rw [this, hvalok]
                  simp [mergeInfo, valUpd, hve, hdiscinfo]
                · rw [hm]
                  simp [mergeInfo, valUpd, hve, hdiscinfo]
        · -- discovery failed
          have hdnone : discOutcome env d = none :=
            Option.not_isSome_iff_eq_none.1 hdk
          have hdnotinout : d ∉ out.map Prod.fst := by
            rw [houtkeys]
            simp [List.mem_filter, discOk, hdnone]
          have ht : (initLoop env inits st5).modules.lookup d =
              st3.modules.lookup d := by
            rw [initLoop_lookup_notmem env inits st5
              (hinitssub d (hmanssub d hdnotinout))]
            have h5 := loadLoop_lookup_notmem env mans hmanskey [] st4
              (hmanssub d hdnotinout)
            rw [hload] at h5
            rw [h5]
            exact validateLoop_lookup_notmem env out [] st3 (mans, st4) hv
              hdnotinout
          rw [hd3] at ht
          refine ⟨_, by rw [hmod]; exact ht, ?_, ?_, ?_, ?_⟩
          · simp [discInfo, hdnone]
          · have hls : lastStage env d = .discovery := by
              simp [lastStage, hdk]
            rw [hls]
            simp [discInfo, hdnone]
          · have hls : lastStage env d = .discovery := by
              simp [lastStage, hdk]
            rw [hls]
            have : stageReached env d .discovery = discOk env d := rfl
            rw [this]
            have hdof : discOk env d = false := by
              simp [discOk, hdnone]
            rw [hdof]
            simp [discInfo, hdnone]
          · simp [discInfo, hdnone]
      · -- the load order
        rw [hord, initLoop_initOrder env inits st5]
        have hio3 : st3.initOrder = [] := by
          have h0 := discover_frame env (tick env { initK with isSetupInProgress := true }).2
          rw [hdisc] at h0
          exact h0.1
        have hio4 : st4.initOrder = [] := by
          have h0 := validateLoop_frame env out [] st3 (mans, st4) hv
          rw [h0.1, hio3]
        have hio5 : st5.initOrder = [] := by
          have h0 := loadLoop_frame env mans [] st4
          rw [hload] at h0
          rw [h0.1, hio4]
        rw [hio5, hinits, hmans, hout]
        simpa using initsChain env (sortStrings env.directories)

/-! Coherence of the per-stage pass predicates. -/

theorem valOk_imp_discOk {env : Env} {d : String} (h : valOk env d = true) :
    discOk env d = true := by
  cases hm : discOutcome env d with
  | none => rw [valOk, hm] at h; cases h
  | some m => simp [discOk, hm]

theorem loadOk_imp_valOk {env : Env} {d : String} (h : loadOk env d = true) :
    valOk env d = true := by
  simp only [loadOk, Bool.and_eq_true] at h
  exact h.1

theorem initOk_imp_loadOk {env : Env} {d : String} (h : initOk env d = true) :
    loadOk env d = true := by
  simp only [initOk, Bool.and_eq_true] at h
  exact h.1

theorem stageReached_lastStage (env : Env) (d : String) :
    stageReached env d (lastStage env d) = initOk env d := by
  by_cases h1 : discOk env d = true
  · by_cases h2 : valOk env d = true
    · by_cases h3 : loadOk env d = true
      · simp [lastStage, h1, h2, h3, stageReached]
      · have h3' : loadOk env d = false := by simpa using h3
        have h4 : initOk env d = false := by simp [initOk, h3']
        simp [lastStage, h1, h2, h3', stageReached, h4]
    · have h2' : valOk env d = false := by simpa using h2
      have h4 : initOk env d = false := by
        cases hb : initOk env d with
        | false => rfl
        | true =>
            exact absurd (loadOk_imp_valOk (initOk_imp_loadOk hb))
              (by simp [h2'])
      simp [lastStage, h1, h2', stageReached, h4]
  · have h1' : discOk env d = false := by simpa using h1
    have h2 : valOk env d = false := by
      cases hb : valOk env d with
      | false => rfl
      | true => exact absurd (valOk_imp_discOk hb) (by simp [h1'])
    have h3 : loadOk env d = false := by
      cases hb : loadOk env d with
      | false => rfl
      | true => exact absurd (loadOk_imp_valOk hb) (by simp [h2])
    have h4 : initOk env d = false := by simp [initOk, h3]
    simp [lastStage, h1', stageReached, h4]

theorem lastStage_eq_init_of_success {env : Env} {d : String}
    (h : initOk env d = true) : lastStage env d = .initialization := by
  have h3 := initOk_imp_loadOk h
  have h2 := loadOk_imp_valOk h3
  have h1 := valOk_imp_discOk h2
  simp [lastStage, h1, h2, h3]

/-- How the counting filters of getReport evaluate on a record whose
stage and success fields are those of a completed run. -/
theorem record_count_eval (env : Env) (d : String) (info : ModuleInfo)
    (hst : info.stage = some (lastStage env d))
    (hsu : info.success = some (stageReached env d (lastStage env d))) :
    ((decide (info.stage = some Stage.validation) && infoSuccess info) ||
      decide (info.stage = some Stage.loading) ||
      decide (info.stage = some Stage.initialization)) = valOk env d ∧
    ((decide (info.stage = some Stage.loading) && infoSuccess info) ||
      decide (info.stage = some Stage.initialization)) = loadOk env d ∧
    (decide (info.stage = some Stage.initialization) && infoSuccess info) =
      initOk env d ∧
    (!(infoSuccess info)) = !(initOk env d) := by
  have hsu' : infoSuccess info = stageReached env d (lastStage env d) := by
    rw [infoSuccess, hsu]
    rfl
  by_cases h1 : discOk env d = true
  · by_cases h2 : valOk env d = true
    · by_cases h3 : loadOk env d = true
      · have hls : lastStage env d = .initialization := by
          simp [lastStage, h1, h2, h3]
        rw [hls] at hst hsu'
        simp only [stageReached] at hsu'
        refine ⟨?_, ?_, ?_, ?_⟩ <;> simp [hst, hsu', h2, h3]
      · have h3' : loadOk env d = false := by simpa using h3
        have h4 : initOk env d = false := by simp [initOk, h3']
        have hls : lastStage env d = .loading := by
          simp [lastStage, h1, h2, h3']
        rw [hls] at hst hsu'
        simp only [stageReached] at hsu'
        refine ⟨?_, ?_, ?_, ?_⟩ <;> simp [hst, hsu', h2, h3', h4]
    · have h2' : valOk env d = false := by simpa using h2
      have h3 : loadOk env d = false := by
        cases hb : loadOk env d with
        | false => rfl
        | true => exact absurd (loadOk_imp_valOk hb) (by simp [h2'])
      have h4 : initOk env d = false := by simp [initOk, h3]
      have hls : lastStage env d = .validation := by
        simp [lastStage, h1, h2']
      rw [hls] at hst hsu'
      simp only [stageReached] at hsu'
      refine ⟨?_, ?_, ?_, ?_⟩ <;> simp [hst, hsu', h2', h3, h4]
  · have h1' : discOk env d = false := by simpa using h1
    have h2 : valOk env d = false := by
      cases hb : valOk env d with
      | false => rfl
      | true => exact absurd (valOk_imp_discOk hb) (by simp [h1'])
    have h3 : loadOk env d = false := by
      cases hb : loadOk env d with
      | false => rfl
      | true => exact absurd (loadOk_imp_valOk hb) (by simp [h2])
    have h4 : initOk env d = false := by simp [initOk, h3]
    have hls : lastStage env d = .discovery := by
      simp [lastStage, h1']
    rw [hls] at hst hsu'
    simp only [stageReached] at hsu'
    refine ⟨?_, ?_, ?_, ?_⟩ <;> simp [hst, hsu', h1', h2, h3, h4]

theorem filter_values_length {M : List (String × ModuleInfo)}
    (f : ModuleInfo → Bool) (g : String → Bool)
    (hfg : ∀ p ∈ M, f p.2 = g p.1) :
    ((M.map Prod.snd).filter f).length = ((M.map Prod.fst).filter g).length := by
  induction M with
  | nil => rfl
  | cons p rest ih =>
    have h0 := hfg p (List.mem_cons_self ..)
    simp only [List.map_cons, List.filter_cons]
    rw [h0]
    cases g p.1 <;>
      simp [ih (fun q hq => hfg q (List.mem_cons_of_mem _ hq))]

theorem discOutcome_frozen {env : Env} {d : String} {m : StoredManifest}
    (h : discOutcome env d = some m) : m.frozen = true := by
  cases hr : env.readManifest d with
  | ioError =>
      simp only [discOutcome, hr] at h
      exact Option.noConfusion h
  | parseError =>
      simp only [discOutcome, hr] at h
      exact Option.noConfusion h
  | ok v =>
      simp only [discOutcome, hr] at h
      by_cases hobj : jsObjectNotArray v
      · rw [if_pos hobj] at h
        injection h with h
        rw [← h]
      · rw [if_neg hobj] at h
        cases h

theorem mem_assocSet {α : Type} {m : List (String × α)} {k : String} {v : α}
    {p : String × α} (h : p ∈ assocSet m k v) : p ∈ m ∨ p = (k, v) := by
  induction m with
  | nil =>
    simp [assocSet] at h
    right
    simp [h]
  | cons q rest ih =>
    obtain ⟨k', v'⟩ := q
    by_cases hk : k' = k
    · subst hk
      simp only [assocSet, if_pos rfl] at h
      rcases List.mem_cons.1 h with he | hm
      · right; exact he
      · left; exact List.mem_cons_of_mem _ hm
    · simp only [assocSet, if_neg hk] at h
      rcases List.mem_cons.1 h with he | hm
      · left; simp [he]
      · rcases ih hm with h1 | h1
        · left; exact List.mem_cons_of_mem _ h1
        · right; exact h1

theorem discoverLoop_out_frozen (env : Env) (dirs : List String) :
    ∀ (out : List (String × StoredManifest)) (st : KState),
      (∀ p ∈ out, p.2.frozen = true) →
      ∀ p ∈ (discoverLoop env dirs out st).1, p.2.frozen = true := by
  induction dirs with
  | nil => intro out st hout p hp; exact hout p hp
  | cons d rest ih =>
    intro out st hout p hp
    cases hr : env.readManifest d with
    | ioError =>
        simp only [discoverLoop, hr] at hp
        exact ih _ _ hout p hp
    | parseError =>
        simp only [discoverLoop, hr] at hp
        exact ih _ _ hout p hp
    | ok v =>
        by_cases hobj : jsObjectNotArray v
        · simp only [discoverLoop, hr, hobj, if_true] at hp
          refine ih _ _ ?_ p hp
          intro q hq
          rcases mem_assocSet hq with h1 | h1
          · exact hout q h1
          · rw [h1]
        · simp only [discoverLoop, hr, hobj, Bool.false_eq_true, if_false] at hp
          exact ih _ _ hout p hp

/-! Claim theorems. -/

/-- Claim C1 (code bug): setup is documented never to raise, but a module
directory whose manifest.json holds the JSON document null passes the
discovery shape gate (typeof null is the string object), and the
destructuring at the top of validate then throws a TypeError that
escapes setup: the run rejects instead of recording a module failure. -/
theorem setup_raises_on_null_manifest : setup envNull initK = none := rfl

/-- Claim C6 (code bug): discovery is specified to record a failure for
any parsed value that is not a non-array object, but the parsed value
null is recorded as a discovery success (with the frozen null stored as
the manifest) and passed on to validation, because typeof null is the
string object in JavaScript. -/
theorem discover_accepts_null_manifest :
    jsObjectNotArray JVal.jnull = true ∧
    (discover envNull initK).2.modules.lookup "mod-a" =
      some { name := some "mod-a", success := some true,
             stage := some Stage.discovery,
             manifest := some ⟨JVal.jnull, true⟩ } ∧
    (getReport (discover envNull initK).2).failed = 0 :=
  ⟨rfl, rfl, rfl⟩

/-- Claim C2: a second setup call, after one that returned, returns the
state unchanged: the idempotency gate is closed (the first call either
completed, setting the complete flag, or itself returned early with a
flag already up), so no stage work happens and the report, the load
order and the recorded duration are those of the first call. -/
theorem setup_idempotent (env : Env) (st0 st1 st2 : KState)
    (h1 : setup env st0 = some st1) (h2 : setup env st1 = some st2) :
    st2 = st1 ∧ getReport st2 = getReport st1 ∧
    getLoadOrder st2 = getLoadOrder st1 ∧ st2.setupTime = st1.setupTime := by
  have hflag : (st1.isSetupComplete || st1.isSetupInProgress) = true := by
    by_cases hc : (st0.isSetupComplete || st0.isSetupInProgress) = true
    · unfold setup at h1
      rw [if_pos hc] at h1
      injection h1 with h1
      rw [← h1]
      exact hc
    · have hc' := hc
      simp only [Bool.or_eq_true, not_or, Bool.not_eq_true] at hc'
      rw [setup_unfold env st0 hc'.1 hc'.2] at h1
      cases hv : validateLoop env
          (discover env (tick env { st0 with isSetupInProgress := true }).2).1 []
          (discover env (tick env { st0 with isSetupInProgress := true }).2).2 with
      | none =>
          rw [hv] at h1
          exact Option.noConfusion h1
      | some r =>
          obtain ⟨mans, st4⟩ := r
          rw [hv] at h1
          simp only [Option.some.injEq] at h1
          rw [← h1]
          rfl
  have hdone : setup env st1 = some st1 := by
    unfold setup
    rw [if_pos hflag]
  rw [hdone] at h2
  injection h2 with h2
  exact ⟨h2.symm, by rw [h2], by rw [h2], by rw [h2]⟩

/-- Claim C2 witness: after the envW run, a second setup call changes
nothing. -/
theorem setup_idempotent_witness :
    stW2 = stW ∧ getReport stW2 = getReport stW ∧
    getLoadOrder stW2 = getLoadOrder stW ∧ stW2.setupTime = stW.setupTime :=
  setup_idempotent envW initK stW stW2 rfl rfl

/-- Claim C4 counterexample: the name dir-b differs from the directory
name dir-a, both strings, yet validating a manifest carrying only that
name records a missing-entry failure, not a name mismatch: the missing
field checks precede the mismatch check. -/
theorem validate_mismatch_counterexample :
    (validate envNull "dir-a" ⟨.jobj [("name", .jstr "dir-b")], true⟩ initK).map
        (fun r => (r.1, (r.2.modules.lookup "dir-a").bind (fun i => i.error)))
      = some (false, some (.manifestMissingFieldError "dir-a" "entry")) ∧
    SetupError.manifestMissingFieldError "dir-a" "entry" ≠
      SetupError.manifestNameMismatchError "dir-a" "dir-b" :=
  ⟨rfl, by decide⟩

/-- Claim C4 (amended): for every environment, directory name and
manifest whose name field destructures to a nonempty string different
from the directory name and whose entry field destructures to a nonempty
string, validate records a name-mismatch validation failure and returns
false. -/
theorem validate_name_mismatch (env : Env) (dirName : String)
    (m : StoredManifest) (st : KState) {nv ev : Option JVal}
    (hde : jsDestructNameEntry m.val = some (nv, ev)) {name entry : String}
    (hn : truthyStr nv = some name) (he : truthyStr ev = some entry)
    (hne : name ≠ dirName) :
    validate env dirName m st =
      some (false, setModuleInfo st dirName
        { success := some false, stage := some .validation,
          error := some (.manifestNameMismatchError dirName name) }) := by
  simp [validate, validationOutcome, hde, hn, he, hne]

/-- Claim C4 witness: a manifest named dir-b in directory dir-a with a
well-formed entry is rejected with a name mismatch. -/
theorem validate_name_mismatch_witness :
    validate envNull "dir-a"
        ⟨.jobj [("name", .jstr "dir-b"), ("entry", .jstr "index.ts")], true⟩
        initK =
      some (false, setModuleInfo initK "dir-a"
        { success := some false, stage := some .validation,
          error := some (.manifestNameMismatchError "dir-a" "dir-b") }) :=
  validate_name_mismatch envNull "dir-a"
    ⟨.jobj [("name", .jstr "dir-b"), ("entry", .jstr "index.ts")], true⟩
    initK rfl rfl rfl (by decide)

/-- Claim C5 counterexample: the entry value index.txt is a string not
ending in a recognized source extension, yet validating a manifest
carrying only that entry records a missing-name failure, not the
extension violation: the missing field checks come first. -/
theorem validate_extension_counterexample :
    (validate envNull "dir-a" ⟨.jobj [("entry", .jstr "index.txt")], true⟩
        initK).map
        (fun r => (r.1, (r.2.modules.lookup "dir-a").bind (fun i => i.error)))
      = some (false, some (.manifestMissingFieldError "dir-a" "name")) ∧
    SetupError.manifestMissingFieldError "dir-a" "name" ≠
      SetupError.moduleValidationError "dir-a" "index.txt"
        "Entrypoint must be TypeScript or JavaScript" :=
  ⟨rfl, by decide⟩

/-- Claim C5 (amended): for every environment (in particular whatever
the entry-existence probe answers), directory name and manifest whose
name field destructures to exactly the directory name and whose entry
field destructures to a nonempty string not ending in .ts or .js,
validate records the extension-violation failure and returns false. -/
theorem validate_extension_gate (env : Env) (dirName : String)
    (m : StoredManifest) (st : KState) {nv ev : Option JVal}
    (hde : jsDestructNameEntry m.val = some (nv, ev)) {entry : String}
    (hn : truthyStr nv = some dirName) (he : truthyStr ev = some entry)
    (hext : sourceFileExt entry = false) :
    validate env dirName m st =
      some (false, setModuleInfo st dirName
        { success := some false, stage := some .validation,
          error := some (.moduleValidationError dirName entry
            "Entrypoint must be TypeScript or JavaScript") }) := by
  simp [validate, validationOutcome, hde, hn, he, hext]

/-- Claim C5 witness: entry notes.txt in a manifest whose name matches
its directory fails with the extension violation, in an environment
whose existence probe answers false for every file. -/
theorem validate_extension_gate_witness :
    validate envNull "dir-a"
        ⟨.jobj [("name", .jstr "dir-a"), ("entry", .jstr "notes.txt")], true⟩
        initK =
      some (false, setModuleInfo initK "dir-a"
        { success := some false, stage := some .validation,
          error := some (.moduleValidationError "dir-a" "notes.txt"
            "Entrypoint must be TypeScript or JavaScript") }) :=
  validate_extension_gate envNull "dir-a"
    ⟨.jobj [("name", .jstr "dir-a"), ("entry", .jstr "notes.txt")], true⟩
    initK rfl rfl rfl rfl

/-- Claim C3: after a completed fresh run, the load order log is exactly
the sorted directory listing filtered to the modules whose whole
pipeline, the initializer included, succeeded: it contains exactly those
names, in code-unit lexicographic order, without duplicates, and a
module whose initializer threw is never in it. -/
theorem loadOrder_lexicographic (env : Env) (hnd : env.directories.Nodup)
    {st' : KState} (h : setup env initK = some st') :
    getLoadOrder st' =
      (sortStrings env.directories).filter (fun d => initOk env d) ∧
    (∀ x, x ∈ getLoadOrder st' ↔ x ∈ env.directories ∧ initOk env x = true) ∧
    (getLoadOrder st').Pairwise StrLe ∧ (getLoadOrder st').Nodup := by
  obtain ⟨_, _, _, hord, _, _⟩ := setup_master env hnd h
  have heq : getLoadOrder st' =
      (sortStrings env.directories).filter (fun d => initOk env d) := hord
  refine ⟨heq, ?_, ?_, ?_⟩
  · intro x
    rw [heq]
    simp [List.mem_filter, mem_sortStrings]
  · rw [heq]
    exact (sortStrings_pairwise env.directories).sublist (List.filter_sublist _)
  · rw [heq]
    exact (sortStrings_nodup hnd).sublist (List.filter_sublist _)

/-- Claim C3 witness: in the envW run the module whose initializer threw
is missing from the load order and the one that completed is in it. -/
theorem loadOrder_lexicographic_witness :
    getLoadOrder stW =
      (sortStrings envW.directories).filter (fun d => initOk envW d) ∧
    (∀ x, x ∈ getLoadOrder stW ↔ x ∈ envW.directories ∧ initOk envW x = true) ∧
    (getLoadOrder stW).Pairwise StrLe ∧ (getLoadOrder stW).Nodup :=
  loadOrder_lexicographic envW (by decide) (by rfl)

/-- Claim C8: after a completed fresh run the report counts are
cumulative: discovered is the number of directories, validated counts
every module that passed validation (whatever happened later), loaded
every module that loaded, initialized exactly the modules whose
initializer completed, and failed exactly the modules that did not make
it through every stage. -/
theorem getReport_cumulative (env : Env) (hnd : env.directories.Nodup)
    {st' : KState} (h : setup env initK = some st') :
    (getReport st').discovered = env.directories.length ∧
    (getReport st').validated =
      (env.directories.filter (fun d => valOk env d)).length ∧
    (getReport st').loaded =
      (env.directories.filter (fun d => loadOk env d)).length ∧
    (getReport st').initialized =
      (env.directories.filter (fun d => initOk env d)).length ∧
    (getReport st').failed =
      (env.directories.filter (fun d => !(initOk env d))).length := by
  obtain ⟨hnodup, hnone, hchar, _, _, _⟩ := setup_master env hnd h
  have hmemkeys : ∀ a, a ∈ st'.modules.map Prod.fst ↔ a ∈ env.directories := by
    intro a
    constructor
    · intro ha
      by_contra hc
      exact (lookup_none_iff_notmem st'.modules a).1 (hnone a hc) ha
    · intro ha
      rcases hchar a ha with ⟨info, hl, _⟩
      by_contra hc
      rw [(lookup_none_iff_notmem st'.modules a).2 hc] at hl
      exact Option.noConfusion hl
  have hperm : List.Perm (st'.modules.map Prod.fst) env.directories :=
    (List.perm_ext_iff_of_nodup hnodup hnd).2 hmemkeys
  have hpoint : ∀ p ∈ st'.modules,
      p.2.stage = some (lastStage env p.1) ∧
      p.2.success = some (stageReached env p.1 (lastStage env p.1)) := by
    intro p hp
    have hpk : p.1 ∈ env.directories :=
      (hmemkeys p.1).1 (List.mem_map.2 ⟨p, hp, rfl⟩)
    rcases hchar p.1 hpk with ⟨info, hl, _, hstage, hsucc, _⟩
    have hpv : p.2 = info := by
      have h2 := lookup_eq_some_of_mem hnodup hp
      rw [h2] at hl
      injection hl
    rw [hpv]
    exact ⟨hstage, hsucc⟩
  refine ⟨?_, ?_, ?_, ?_, ?_⟩
  · show (st'.modules.map Prod.snd).length = env.directories.length
    rw [List.length_map, ← hperm.length_eq, List.length_map]
  · rw [show (getReport st').validated = ((st'.modules.map Prod.snd).filter
        (fun m => (decide (m.stage = some .validation) && infoSuccess m) ||
          decide (m.stage = some .loading) ||
          decide (m.stage = some .initialization))).length from rfl]
    rw [filter_values_length _ (fun d => valOk env d)
      (fun p hp => ((record_count_eval env p.1 p.2 (hpoint p hp).1
        (hpoint p hp).2).1))]
    exact (hperm.filter _).length_eq
  · rw [show (getReport st').loaded = ((st'.modules.map Prod.snd).filter
        (fun m => (decide (m.stage = some .loading) && infoSuccess m) ||
          decide (m.stage = some .initialization))).length from rfl]
    rw [filter_values_length _ (fun d => loadOk env d)
      (fun p hp => ((record_count_eval env p.1 p.2 (hpoint p hp).1
        (hpoint p hp).2).2.1))]
    exact (hperm.filter _).length_eq
  · rw [show (getReport st').initialized = ((st'.modules.map Prod.snd).filter
        (fun m => decide (m.stage = some .initialization) &&
          infoSuccess m)).length from rfl]
    rw [filter_values_length _ (fun d => initOk env d)
      (fun p hp => ((record_count_eval env p.1 p.2 (hpoint p hp).1
        (hpoint p hp).2).2.2.1))]
    exact (hperm.filter _).length_eq
  · rw [show (getReport st').failed = ((st'.modules.map Prod.snd).filter
        (fun m => !(infoSuccess m))).length from rfl]
    rw [filter_values_length _ (fun d => !(initOk env d))
      (fun p hp => ((record_count_eval env p.1 p.2 (hpoint p hp).1
        (hpoint p hp).2).2.2.2))]
    exact (hperm.filter _).length_eq

/-- Claim C8 witness: the envW run discovers two modules, validates and
loads both, initializes one and reports one failure. -/
theorem getReport_cumulative_witness :
    (getReport stW).discovered = envW.directories.length ∧
    (getReport stW).validated =
      (envW.directories.filter (fun d => valOk envW d)).length ∧
    (getReport stW).loaded =
      (envW.directories.filter (fun d => loadOk envW d)).length ∧
    (getReport stW).initialized =
      (envW.directories.filter (fun d => initOk envW d)).length ∧
    (getReport stW).failed =
      (envW.directories.filter (fun d => !(initOk envW d))).length :=
  getReport_cumulative envW (by decide) (by rfl)

/-- Claim C9: after a completed fresh run every successful record sits
at the initialization stage, isModuleSetUp answers true exactly for the
names in the load order log, and false for a name that was never
discovered. -/
theorem isModuleSetUp_iff_loadOrder (env : Env) (hnd : env.directories.Nodup)
    {st' : KState} (h : setup env initK = some st') :
    (∀ p ∈ st'.modules, infoSuccess p.2 = true →
      p.2.stage = some Stage.initialization) ∧
    (∀ name, isModuleSetUp st' name = true ↔ name ∈ getLoadOrder st') ∧
    (∀ name, name ∉ env.directories → isModuleSetUp st' name = false) := by
  obtain ⟨hnodup, hnone, hchar, hord, _, _⟩ := setup_master env hnd h
  have hchar' : ∀ p ∈ st'.modules,
      p.1 ∈ env.directories ∧
      p.2.stage = some (lastStage env p.1) ∧
      p.2.success = some (stageReached env p.1 (lastStage env p.1)) := by
    intro p hp
    have hpk : p.1 ∈ env.directories := by
      by_contra hc
      have h2 := lookup_eq_some_of_mem hnodup hp
      rw [hnone p.1 hc] at h2
      exact Option.noConfusion h2
    rcases hchar p.1 hpk with ⟨info, hl, _, hstage, hsucc, _⟩
    have hpv : p.2 = info := by
      have h2 := lookup_eq_some_of_mem hnodup hp
      rw [h2] at hl
      injection hl
    rw [hpv]
    exact ⟨hpk, hstage, hsucc⟩
  refine ⟨?_, ?_, ?_⟩
  · intro p hp hsu
    rcases hchar' p hp with ⟨_, hstage, hsucc⟩
    have h1 : infoSuccess p.2 = stageReached env p.1 (lastStage env p.1) := by
      rw [infoSuccess, hsucc]
      rfl
    rw [stageReached_lastStage] at h1
    rw [hstage, lastStage_eq_init_of_success (h1 ▸ hsu)]
  · intro name
    by_cases hm : name ∈ env.directories
    · rcases hchar name hm with ⟨info, hl, _, _, hsucc, _⟩
      have hsu : isModuleSetUp st' name = initOk env name := by
        simp only [isModuleSetUp, hl]
        simp [infoSuccess, hsucc, stageReached_lastStage]
      rw [hsu]
      rw [show getLoadOrder st' = st'.initOrder from rfl, hord]
      simp [List.mem_filter, mem_sortStrings, hm]
    · have hl : isModuleSetUp st' name = false := by
        simp only [isModuleSetUp, hnone name hm]
      rw [hl]
      rw [show getLoadOrder st' = st'.initOrder from rfl, hord]
      simp only [Bool.false_eq_true, false_iff]
      intro hc
      exact hm (mem_sortStrings.1 (List.mem_of_mem_filter hc))
  · intro name hm
    simp only [isModuleSetUp, hnone name hm]

/-- Claim C9 witness: in the envW run isModuleSetUp agrees with the load
order and is false for undiscovered names. -/
theorem isModuleSetUp_iff_loadOrder_witness :
    (∀ p ∈ stW.modules, infoSuccess p.2 = true →
      p.2.stage = some Stage.initialization) ∧
    (∀ name, isModuleSetUp stW name = true ↔ name ∈ getLoadOrder stW) ∧
    (∀ name, name ∉ envW.directories → isModuleSetUp stW name = false) :=
  isModuleSetUp_iff_loadOrder envW (by decide) (by rfl)

/-- Claim C10: every manifest the discovery stage emits is frozen at
discovery time, and after a completed fresh run every manifest reachable
through the registry, getManifests or getModuleInfo, the manifests
retained by failure records included, is the frozen object. -/
theorem manifests_frozen (env : Env) (hnd : env.directories.Nodup)
    {st' : KState} (h : setup env initK = some st') :
    (∀ st : KState, ∀ p ∈ (discover env st).1, p.2.frozen = true) ∧
    (∀ p ∈ st'.modules, ∀ m, p.2.manifest = some m → m.frozen = true) ∧
    (∀ om ∈ getManifests st', ∀ m, om = some m → m.frozen = true) ∧
    (∀ name info, getModuleInfo st' name = some info →
      ∀ m, info.manifest = some m → m.frozen = true) := by
  obtain ⟨hnodup, hnone, hchar, _, _, _⟩ := setup_master env hnd h
  have hreg : ∀ p ∈ st'.modules, ∀ m, p.2.manifest = some m →
      m.frozen = true := by
    intro p hp m hm
    have hpk : p.1 ∈ env.directories := by
      by_contra hc
      have h2 := lookup_eq_some_of_mem hnodup hp
      rw [hnone p.1 hc] at h2
      exact Option.noConfusion h2
    rcases hchar p.1 hpk with ⟨info, hl, _, _, _, hman⟩
    have hpv : p.2 = info := by
      have h2 := lookup_eq_some_of_mem hnodup hp
      rw [h2] at hl
      injection hl
    rw [hpv] at hm
    rw [hm] at hman
    exact discOutcome_frozen hman.symm
  refine ⟨?_, hreg, ?_, ?_⟩
  · intro st p hp
    rcases he : discoverLoop env (sortStrings env.directories) [] st
      with ⟨out, st1⟩
    have hd1 : (discover env st).1 = out := by
      simp [discover, he]
    rw [hd1] at hp
    refine discoverLoop_out_frozen env (sortStrings env.directories) [] st
      (by simp) p ?_
    rw [he]
    exact hp
  · intro om hom m hm
    rcases List.mem_map.1 hom with ⟨info, hinfo, hinfom⟩
    have h1 : info ∈ st'.modules.map Prod.snd :=
      List.mem_of_mem_filter hinfo
    rcases List.mem_map.1 h1 with ⟨p, hp, hpinfo⟩
    refine hreg p hp m ?_
    rw [hpinfo, hinfom, hm]
  · intro name info hinfo m hm
    exact hreg (name, info) (mem_of_lookup_eq_some hinfo) m hm

/-- Claim C10 witness: in the envW run all reachable manifests are
frozen. -/
theorem manifests_frozen_witness :
    (∀ st : KState, ∀ p ∈ (discover envW st).1, p.2.frozen = true) ∧
    (∀ p ∈ stW.modules, ∀ m, p.2.manifest = some m → m.frozen = true) ∧
    (∀ om ∈ getManifests stW, ∀ m, om = some m → m.frozen = true) ∧
    (∀ name info, getModuleInfo stW name = some info →
      ∀ m, info.manifest = some m → m.frozen = true) :=
  manifests_frozen envW (by decide) (by rfl)

/-! The run context: the intermediate states of a completed fresh run. -/

theorem setup_ctx (env : Env) {st' : KState} (h : setup env initK = some st') :
    ∃ out st3 mans st4 inits st5,
      discover env (tick env { initK with isSetupInProgress := true }).2 =
        (out, st3) ∧
      validateLoop env out [] st3 = some (mans, st4) ∧
      loadLoop env mans [] st4 = (inits, st5) ∧
      st'.modules = (initLoop env inits st5).modules ∧
      pipelineStates env =
        [(.discovery, st3), (.validation, st4), (.loading, st5),
         (.initialization, initLoop env inits st5)] := by
  rw [setup_unfold env initK rfl rfl] at h
  rcases hdisc : discover env (tick env { initK with isSetupInProgress := true }).2
    with ⟨out, st3⟩
  rw [hdisc] at h
  cases hv : validateLoop env out [] st3 with
  | none =>
      rw [hv] at h
      exact Option.noConfusion h
  | some r =>
      obtain ⟨mans, st4⟩ := r
      rw [hv] at h
      simp only [Option.some.injEq] at h
      rcases hload : loadLoop env mans [] st4 with ⟨inits, st5⟩
      rw [hload] at h
      refine ⟨out, st3, mans, st4, inits, st5, rfl, hv, hload, ?_, ?_⟩
      · rw [← h]
        rfl
      · simp only [pipelineStates, hdisc, hv, hload]

theorem minStage_discovery (s : Stage) : minStage s .discovery = .discovery := by
  cases s <;> rfl

theorem minStage_self_initialization (s : Stage) :
    minStage s .initialization = s := by
  cases s <;> rfl

theorem minStage_lastStage_validation {env : Env} {d : String}
    (h : discOk env d = true) :
    minStage (lastStage env d) .validation = .validation := by
  rcases hb : valOk env d with _ | _ <;> rcases hc : loadOk env d with _ | _ <;>
    simp [lastStage, h, hb, hc, minStage, stageIdx]

theorem minStage_lastStage_loading {env : Env} {d : String}
    (h : discOk env d = true) (hv : valOk env d = true) :
    minStage (lastStage env d) .loading = .loading := by
  rcases hc : loadOk env d with _ | _ <;>
    simp [lastStage, h, hv, hc, minStage, stageIdx]

theorem registryInvAt_of_modules_eq {env : Env} {k : Stage} {s1 s2 : KState}
    (hm : s2.modules = s1.modules) (h : registryInvAt env k s1) :
    registryInvAt env k s2 := by
  obtain ⟨h1, h2⟩ := h
  rw [registryInvAt, hm]
  exact ⟨h1, h2⟩

/-- Claim C7: along a completed fresh run, at each stage boundary and in
the final state, the registry holds at most one record per module, every
record belongs to a listed directory, each record's stage field is the
last stage attempted for that module so far, its success field says
whether that stage passed, and a success in the final state means every
stage, discovery through initialization, passed. -/
theorem registry_stage_invariant (env : Env) (hnd : env.directories.Nodup)
    {st' : KState} (h : setup env initK = some st') :
    (∀ q ∈ pipelineStates env, registryInvAt env q.1 q.2) ∧
    registryInvAt env .initialization st' ∧
    (∀ p ∈ st'.modules, infoSuccess p.2 = true →
      discOk env p.1 = true ∧ valOk env p.1 = true ∧
      loadOk env p.1 = true ∧ initOk env p.1 = true) := by
  obtain ⟨hnodup, hnone, hchar, _, _, _⟩ := setup_master env hnd h
  obtain ⟨out, st3, mans, st4, inits, st5, hdisc, hv, hload, hmod, hpipe⟩ :=
    setup_ctx env h
  -- shared context, as in the master proof
  have hsortnd := sortStrings_nodup hnd
  have hout : out = (sortStrings env.directories).filterMap
      (fun d => (discOutcome env d).map (fun m => (d, m))) := by
    have h0 := discover_out env hnd (tick env { initK with isSetupInProgress := true }).2
    rw [hdisc] at h0
    exact h0
  have houtkeys : out.map Prod.fst =
      (sortStrings env.directories).filter (fun d => discOk env d) := by
    rw [hout, keys_discOutput]
  have houtkeysnd : (out.map Prod.fst).Nodup := by
    rw [houtkeys]
    exact hsortnd.filter _
  have hst3lookup : ∀ k, st3.modules.lookup k =
      if k ∈ env.directories then some (discInfo env k) else none := by
    intro k
    have h0 := discover_lookup env hnd (rfl :
      ((tick env { initK with isSetupInProgress := true }).2).modules = []) k
    rw [hdisc] at h0
    exact h0
  have hst3nd : (st3.modules.map Prod.fst).Nodup := by
    have h0 := discover_nodupkeys env
      (tick env { initK with isSetupInProgress := true }).2
      (by simp [tick, initK])
    rw [hdisc] at h0
    exact h0
  have hnothrow := validateLoop_nothrow env out [] st3 (mans, st4) hv
  have hmans : mans = out.filter
      (fun p => decide (validationOutcome env p.1 p.2.val = some none)) := by
    have h0 := validateLoop_mans env houtkeysnd [] st3 (mans, st4) hv (by simp)
    simpa using h0
  have hmanskeysnd : (mans.map Prod.fst).Nodup := by
    rw [hmans]
    exact ((List.filter_sublist _).map Prod.fst).nodup houtkeysnd
  have hmanskey : ∀ p ∈ mans, jsFieldStr p.2.val "name" = p.1 := by
    intro p hp
    rw [hmans] at hp
    exact validationOutcome_pass_name env p.1 p.2.val
      (of_decide_eq_true (List.mem_filter.1 hp).2)
  have hst4nd : (st4.modules.map Prod.fst).Nodup :=
    validateLoop_nodupkeys env out [] st3 (mans, st4) hv hst3nd
  have hst5nd : (st5.modules.map Prod.fst).Nodup := by
    have h0 := loadLoop_nodupkeys env mans [] st4 hst4nd
    rw [hload] at h0
    exact h0
  have houtsub : ∀ k, k ∉ env.directories → k ∉ out.map Prod.fst := by
    intro k hk
    rw [houtkeys]
    intro hc
    exact hk (mem_sortStrings.1 (List.mem_of_mem_filter hc))
  have hmanssub : ∀ k, k ∉ out.map Prod.fst → k ∉ mans.map Prod.fst := by
    intro k hk
    rw [hmans]
    intro hc
    exact hk (((List.filter_sublist _).map Prod.fst).subset hc)
  -- the invariant at the discovery boundary
  have inv3 : registryInvAt env .discovery st3 := by
    refine ⟨hst3nd, ?_⟩
    intro p hp
    have hl := lookup_eq_some_of_mem hst3nd hp
    by_cases hk : p.1 ∈ env.directories
    · rw [hst3lookup p.1, if_pos hk] at hl
      have hpv : p.2 = discInfo env p.1 := by
        injection hl with h9
        exact h9.symm
      rw [hpv, minStage_discovery]
      cases hm : discOutcome env p.1 with
      | none => exact ⟨hk, by simp [discInfo, hm], by simp [discInfo, hm, stageReached, discOk]⟩
      | some m => exact ⟨hk, by simp [discInfo, hm], by simp [discInfo, hm, stageReached, discOk]⟩
    · rw [hst3lookup p.1, if_neg hk] at hl
      exact Option.noConfusion hl
  -- the invariant at the validation boundary
  have inv4 : registryInvAt env .validation st4 := by
    refine ⟨hst4nd, ?_⟩
    intro p hp
    have hl := lookup_eq_some_of_mem hst4nd hp
    by_cases hk : p.1 ∈ env.directories
    · refine ⟨hk, ?_⟩
      by_cases hdk : discOk env p.1 = true
      · rcases Option.isSome_iff_exists.1 hdk with ⟨m, hm⟩
        have hdout : (p.1, m) ∈ out := by
          rw [hout]
          exact mem_discOutput.2 ⟨mem_sortStrings.2 hk, hm⟩
        have h0 := validateLoop_lookup_mem env houtkeysnd hdout [] st3
          (mans, st4) hv
        rw [hst3lookup p.1, if_pos hk] at h0
        rw [h0] at hl
        have hpv : p.2 = mergeInfo (discInfo env p.1) (valUpd env p.1 m.val) := by
          injection hl with hl
          exact hl.symm
        rw [hpv, minStage_lastStage_validation hdk]
        have hvalok : valOk env p.1 = decide (validationOutcome env p.1 m.val = some none) := by
          simp [valOk, hm]
        rcases hvo : validationOutcome env p.1 m.val with _ | r
        · exact absurd hvo (hnothrow (p.1, m) hdout)
        · rcases r with _ | e <;>
            constructor <;>
            simp [mergeInfo, valUpd, hvo, discInfo, hm, stageReached, hvalok]
      · have hdnone : discOutcome env p.1 = none := by
          cases ho : discOutcome env p.1 with
          | none => rfl
          | some m => exact absurd (by simp [discOk, ho]) hdk
        have hdnotinout : p.1 ∉ out.map Prod.fst := by
          rw [houtkeys]
          simp [List.mem_filter, discOk, hdnone]
        rw [validateLoop_lookup_notmem env out [] st3 (mans, st4) hv hdnotinout,
          hst3lookup p.1, if_pos hk] at hl
        have hpv : p.2 = discInfo env p.1 := by
          injection hl with h9
          exact h9.symm
        have hls : lastStage env p.1 = .discovery := by
          simp [lastStage, discOk, hdnone]
        rw [hpv, hls]
        constructor <;>
          simp [discInfo, hdnone, minStage, stageIdx, stageReached, discOk]
    · have hdnotinout := houtsub p.1 hk
      rw [validateLoop_lookup_notmem env out [] st3 (mans, st4) hv hdnotinout,
        hst3lookup p.1, if_neg hk] at hl
      exact Option.noConfusion hl
  -- the invariant at the loading boundary
  have inv5 : registryInvAt env .loading st5 := by
    refine ⟨hst5nd, ?_⟩
    intro p hp
    have hl := lookup_eq_some_of_mem hst5nd hp
    by_cases hk : p.1 ∈ env.directories
    · refine ⟨hk, ?_⟩
      by_cases hdk : discOk env p.1 = true
      · rcases Option.isSome_iff_exists.1 hdk with ⟨m, hm⟩
        have hdout : (p.1, m) ∈ out := by
          rw [hout]
          exact mem_discOutput.2 ⟨mem_sortStrings.2 hk, hm⟩
        have hd4 : st4.modules.lookup p.1 =
            some (mergeInfo (discInfo env p.1) (valUpd env p.1 m.val)) := by
          have h0 := validateLoop_lookup_mem env houtkeysnd hdout [] st3
            (mans, st4) hv
          rw [hst3lookup p.1, if_pos hk] at h0
          simpa using h0
        by_cases hvk : validationOutcome env p.1 m.val = some none
        · have hvalok : valOk env p.1 = true := by
            simp [valOk, hm, hvk]
          have hdm : (p.1, m) ∈ mans := by
            rw [hmans]
            exact List.mem_filter.2 ⟨hdout, by simp [hvk]⟩
          have h0 := loadLoop_lookup_mem env hmanskeysnd hmanskey hdm [] st4
          rw [hload] at h0
          rw [hd4] at h0
          simp only [Option.getD_some] at h0
          rw [h0] at hl
          have hpv : p.2 = mergeInfo
              (mergeInfo (discInfo env p.1) (valUpd env p.1 m.val))
              (loadUpd env m) := by
            injection hl with hl
            exact hl.symm
          rw [hpv, minStage_lastStage_loading hdk hvalok]
          have hloadok : loadOk env p.1 =
              (importRes env m).isSome := by
            simp [loadOk, hvalok, loadRes, hm]
          cases hie : env.importEntry (jsFieldStr m.val "name")
              (jsFieldStr m.val "entry") with
          | importError =>
              constructor <;>
                simp [mergeInfo, loadUpd, hie, valUpd, hvk, discInfo, hm,
                  stageReached, hloadok, importRes]
          | ok ie =>
              cases ie with
              | notFunction =>
                  constructor <;>
                    simp [mergeInfo, loadUpd, hie, valUpd, hvk, discInfo, hm,
                      stageReached, hloadok, importRes]
              | fn b =>
                  constructor <;>
                    simp [mergeInfo, loadUpd, hie, valUpd, hvk, discInfo, hm,
                      stageReached, hloadok, importRes]
        · have hvalok : valOk env p.1 = false := by
            simp [valOk, hm, hvk]
          have hdnotinmans : p.1 ∉ mans.map Prod.fst := by
            rw [hmans]
            intro hc
            rcases List.mem_map.1 hc with ⟨q, hq, hfst⟩
            have hqm := List.mem_filter.1 hq
            have h1 : out.lookup p.1 = some m :=
              lookup_eq_some_of_mem houtkeysnd hdout
            have h2 : out.lookup q.1 = some q.2 :=
              lookup_eq_some_of_mem houtkeysnd hqm.1
            rw [hfst, h1] at h2
            have h3 : q.2 = m := by
              injection h2 with h4
              exact h4.symm
            rw [h3] at hqm
            exact hvk (of_decide_eq_true (hfst ▸ hqm.2))
          have h5 := loadLoop_lookup_notmem env mans hmanskey [] st4
            hdnotinmans
          rw [hload] at h5
          rw [h5, hd4] at hl
          have hpv : p.2 = mergeInfo (discInfo env p.1)
              (valUpd env p.1 m.val) := by
            injection hl with hl
            exact hl.symm
          have hls : lastStage env p.1 = .validation := by
            simp [lastStage, hdk, hvalok]
          rw [hpv, hls]
          rcases hvo : validationOutcome env p.1 m.val with _ | r
          · exact absurd hvo (hnothrow (p.1, m) hdout)
          · rcases r with _ | e
            · exact absurd hvo hvk
            · constructor <;>
                simp [mergeInfo, valUpd, hvo, discInfo, hm, minStage, stageIdx,
                  stageReached, hvalok]
      · have hdnone : discOutcome env p.1 = none := by
          cases ho : discOutcome env p.1 with
          | none => rfl
          | some m => exact absurd (by simp [discOk, ho]) hdk
        have hdnotinout : p.1 ∉ out.map Prod.fst := by
          rw [houtkeys]
          simp [List.mem_filter, discOk, hdnone]
        have h5 := loadLoop_lookup_notmem env mans hmanskey [] st4
          (hmanssub p.1 hdnotinout)
        rw [hload] at h5
        rw [h5, validateLoop_lookup_notmem env out [] st3 (mans, st4) hv
          hdnotinout, hst3lookup p.1, if_pos hk] at hl
        have hpv : p.2 = discInfo env p.1 := by
          injection hl with h9
          exact h9.symm
        have hls : lastStage env p.1 = .discovery := by
          simp [lastStage, discOk, hdnone]
        rw [hpv, hls]
        constructor <;>
          simp [discInfo, hdnone, minStage, stageIdx, stageReached, discOk]
    · have hdnotinout := houtsub p.1 hk
      have h5 := loadLoop_lookup_notmem env mans hmanskey [] st4
        (hmanssub p.1 hdnotinout)
      rw [hload] at h5
      rw [h5, validateLoop_lookup_notmem env out [] st3 (mans, st4) hv
        hdnotinout, hst3lookup p.1, if_neg hk] at hl
      exact Option.noConfusion hl
  -- the invariant in the final state
  have invF : registryInvAt env .initialization st' := by
    refine ⟨hnodup, ?_⟩
    intro p hp
    have hl := lookup_eq_some_of_mem hnodup hp
    by_cases hk : p.1 ∈ env.directories
    · rcases hchar p.1 hk with ⟨info, hl2, _, hstage, hsucc, _⟩
      have hpv : p.2 = info := by
        rw [hl2] at hl
        injection hl with h9
        exact h9.symm
      rw [hpv, minStage_self_initialization]
      exact ⟨hk, hstage, hsucc⟩
    · rw [hnone p.1 hk] at hl
      exact Option.noConfusion hl
  refine ⟨?_, invF, ?_⟩
  · intro q hq
    rw [hpipe] at hq
    rcases List.mem_cons.1 hq with he | hq
    · rw [he]; exact inv3
    rcases List.mem_cons.1 hq with he | hq
    · rw [he]; exact inv4
    rcases List.mem_cons.1 hq with he | hq
    · rw [he]; exact inv5
    rcases List.mem_cons.1 hq with he | hq
    · rw [he]
      exact registryInvAt_of_modules_eq hmod.symm invF
    · cases hq
  · intro p hp hsu
    have hl := lookup_eq_some_of_mem hnodup hp
    by_cases hk : p.1 ∈ env.directories
    · rcases hchar p.1 hk with ⟨info, hl2, _, _, hsucc, _⟩
      have hpv : p.2 = info := by
        rw [hl2] at hl
        injection hl with h9
        exact h9.symm
      rw [hpv] at hsu
      have h1 : infoSuccess info =
          stageReached env p.1 (lastStage env p.1) := by
        rw [infoSuccess, hsucc]
        rfl
      rw [stageReached_lastStage] at h1
      have hini : initOk env p.1 = true := h1 ▸ hsu
      exact ⟨valOk_imp_discOk (loadOk_imp_valOk (initOk_imp_loadOk hini)),
        loadOk_imp_valOk (initOk_imp_loadOk hini), initOk_imp_loadOk hini, hini⟩
    · rw [hnone p.1 hk] at hl
      exact Option.noConfusion hl

/-- Claim C7 witness: the invariant holds along the envW run. -/
theorem registry_stage_invariant_witness :
    (∀ q ∈ pipelineStates envW, registryInvAt envW q.1 q.2) ∧
    registryInvAt envW .initialization stW ∧
    (∀ p ∈ stW.modules, infoSuccess p.2 = true →
      discOk envW p.1 = true ∧ valOk envW p.1 = true ∧
      loadOk envW p.1 = true ∧ initOk envW p.1 = true) :=
  registry_stage_invariant envW (by decide) (by rfl)

end AxiomOne
